import Mathlib

/-!
Verification development for the Spirit Island play tracker
(src/src/SpiritIslandTracker.tsx).

The tracker aggregates a log of plays into per-(spirit, player) and
per-(adversary, level) statistics, derives spirit and adversary
recommendations, a sortable projection of the statistics table, and
per-player summaries.  This file embeds those computations shallowly:

* JavaScript string-keyed objects become association lists (`Rec`)
  whose assignment keeps the position of an existing key, matching the
  insertion-order semantics of JS objects used by Object.values.
* Date parsing (new Date(s).getTime()) is abstracted by a parameter
  `dv : String -> Int` giving the timestamp of a date string; locale
  formatting (toLocaleDateString) by `fmtTs : Int -> String`.
* Math.random is abstracted by an index chooser `pickIdx : Nat -> Nat`
  (the code computes floor(random * length), an index below length).
* The current time (new Date(), read by getRecommendations) is the
  parameter `now : Int`.
* JS truthiness checks on date strings (null or empty string are
  falsy) are modelled explicitly.
* Array.prototype.sort with a comparator is modelled by a stable
  insertion sort `sortC`, matching the stable host sort.
-/

namespace SpiritIsland

/-- One participant entry of a play record: a player id paired with the
spirit they played. -/
structure PlayerEntry where
  player : String
  spirit : String
deriving DecidableEq

/-- One logged play: a date string, the participant list, and an
optional adversary name and level. -/
structure Play where
  date : String
  players : List PlayerEntry
  adversary : Option String
  level : Option Int
deriving DecidableEq

/-- A spirit catalog entry. -/
structure Spirit where
  spirit : String
  complexity : String
  sourceSet : String
  imageUrl : String
deriving DecidableEq

/-- A declared adversary level. -/
structure AdvLevel where
  levelNum : Int
  difficultyVal : Int
  fearCards : String
  gameEffects : String
deriving DecidableEq

/-- An adversary catalog entry. -/
structure Adversary where
  name : String
  baseDifficulty : Int
  escalationRule : String
  urlRef : String
  levels : List AdvLevel
deriving DecidableEq

/-- Per-(spirit, player) statistics cell. -/
structure PlayerStats where
  plays : Nat
  lastPlayed : Option String
deriving DecidableEq

/-- A row of the spirit statistics table: the catalog entry plus the
per-player cells. -/
structure PlayStats where
  spirit : Spirit
  playerStats : List (String × PlayerStats)
deriving DecidableEq

/-- Per-(adversary, level) statistics cell. -/
structure AdvLevelStats where
  plays : Nat
  lastPlayed : Option String
  difficultyVal : Int
deriving DecidableEq

/-- Lookup in a JS-object-like association list. -/
def getk {κ α : Type} [DecidableEq κ] : List (κ × α) → κ → Option α
  | [], _ => none
  | (k, v) :: rest, k' => if k = k' then some v else getk rest k'

/-- Assignment in a JS-object-like association list: replaces the value
in place when the key is present, appends otherwise. -/
def setk {κ α : Type} [DecidableEq κ] : List (κ × α) → κ → α → List (κ × α)
  | [], k, v => [(k, v)]
  | (k', v') :: rest, k, v =>
      if k' = k then (k, v) :: rest else (k', v') :: setk rest k v

/-- Stable insertion of one element: x goes after every leading y with
le y x, modelling a stable comparator sort. -/
def insertC {α : Type} (le : α → α → Bool) (x : α) : List α → List α
  | [] => [x]
  | y :: ys => if le y x then y :: insertC le x ys else x :: y :: ys

/-- Stable sort by repeated insertion, the model of the stable host
Array.prototype.sort. -/
def sortC {α : Type} (le : α → α → Bool) (l : List α) : List α :=
  l.foldl (fun acc x => insertC le x acc) []

/-- JS Set insertion semantics: keep the first occurrence of each
element, in order. -/
def dedupF (l : List String) : List String :=
  l.foldl (fun acc x => if x ∈ acc then acc else acc ++ [x]) []

/-- Lexicographic code-unit comparison of character lists, the model of
the JS string less-than. -/
def listLt : List Char → List Char → Bool
  | [], [] => false
  | [], _ :: _ => true
  | _ :: _, [] => false
  | a :: as, b :: bs => if a < b then true else if b < a then false else listLt as bs

/-- JS string less-than. -/
def strLt (a b : String) : Bool := listLt a.data b.data

/-- Default string comparison of Array.prototype.sort, as a boolean
less-or-equal. -/
def strLe (a b : String) : Bool := !strLt b a

/-- All player ids of the log, in order (plays.flatMap over players). -/
def playersFlat (plays : List Play) : List String :=
  plays.foldr (fun r acc => r.players.map PlayerEntry.player ++ acc) []

/-- The recognized players: distinct player ids of the log, restricted
to the allow-list A, E, sorted ascending (uniquePlayers in the source). -/
def uniquePlayers (plays : List Play) : List String :=
  sortC strLe ((dedupF (playersFlat plays)).filter (fun q => q == "A" || q == "E"))

/-- Fresh zero cells for every recognized player. -/
def initPlayerStats (players : List String) : List (String × PlayerStats) :=
  players.foldl (fun m p => setk m p ⟨0, none⟩) []

/-- Initialization pass of buildPlayStats: one row per catalog spirit,
each with zero cells for every recognized player. -/
def initStats (spirits : List Spirit) (players : List String) : List (String × PlayStats) :=
  spirits.foldl (fun m sp => setk m sp.spirit ⟨sp, initPlayerStats players⟩) []

/-- Last-played update of the source: replace when the stored date is
falsy (null or empty) or the new date parses strictly later. -/
def updLast (dv : String → Int) (date : String) : Option String → String
  | none => date
  | some cur => if cur = "" ∨ dv cur < dv date then date else cur

/-- Processing of a single (player, spirit) participant entry inside
buildPlayStats: bump the cell when both keys exist, otherwise no-op. -/
def recordEntry (dv : String → Int) (date : String)
    (m : List (String × PlayStats)) (e : PlayerEntry) : List (String × PlayStats) :=
  match getk m e.spirit with
  | none => m
  | some ps =>
    match getk ps.playerStats e.player with
    | none => m
    | some st =>
        setk m e.spirit
          ⟨ps.spirit, setk ps.playerStats e.player
            ⟨st.plays + 1, some (updLast dv date st.lastPlayed)⟩⟩

/-- buildPlayStats with the recognized-player set as an explicit
argument (the source reads it from the enclosing closure). -/
def buildPlayStatsWith (dv : String → Int) (players : List String)
    (plays : List Play) (spirits : List Spirit) : List (String × PlayStats) :=
  plays.foldl (fun m r => r.players.foldl (recordEntry dv r.date) m)
    (initStats spirits players)

/-- buildPlayStats of the source: initialize all cells to zero, then a
single pass over the play log. -/
def buildPlayStats (dv : String → Int) (plays : List Play)
    (spirits : List Spirit) : List (String × PlayStats) :=
  buildPlayStatsWith dv (uniquePlayers plays) plays spirits

/-- The (spirit, player) cell of the statistics map. -/
def cell (m : List (String × PlayStats)) (c p : String) : Option PlayerStats :=
  (getk m c).bind (fun e => getk e.playerStats p)

/-- Boolean test used to count contributions of a record to the
(c, p) cell. -/
def matchesPair (c p : String) (e : PlayerEntry) : Bool :=
  e.spirit == c && e.player == p

/-- Total number of (p, c) participant occurrences across the log. -/
def pairCount (c p : String) (l : List Play) : Nat :=
  (l.map (fun r => r.players.countP (matchesPair c p))).sum

/-- Dates of the records contributing to the (c, p) cell, in log
order (a record contributes when it contains the pair at least once). -/
def contribDates (c p : String) (l : List Play) : List String :=
  (l.filter (fun r => 0 < r.players.countP (matchesPair c p))).map Play.date

/-- Folding the last-played update over a list of contributing dates. -/
def foldDates (dv : String → Int) (ds : List String) (acc : Option String) : Option String :=
  ds.foldl (fun a d => some (updLast dv d a)) acc

/-- The fresh level map of one adversary: level 0 (base difficulty)
plus every declared level, all with zero plays. -/
def lmOf (a : Adversary) : List (Int × AdvLevelStats) :=
  a.levels.foldl (fun lm lv => setk lm lv.levelNum ⟨0, none, lv.difficultyVal⟩)
    (setk [] 0 ⟨0, none, a.baseDifficulty⟩)

/-- Initialization pass of buildAdversaryStats: per adversary, a level
map holding level 0 (base difficulty) plus every declared level. -/
def initAdvStats (advs : List Adversary) : List (String × List (Int × AdvLevelStats)) :=
  advs.foldl (fun m a => setk m a.name (lmOf a)) []

/-- Processing of one play record in buildAdversaryStats: a truthy
known adversary and a level present in its map bump that cell,
otherwise no-op (the level defaults to 0 when absent). -/
def recordAdvPlay (dv : String → Int)
    (m : List (String × List (Int × AdvLevelStats))) (r : Play) :
    List (String × List (Int × AdvLevelStats)) :=
  match r.adversary with
  | none => m
  | some nm =>
    if nm = "" then m else
    match getk m nm with
    | none => m
    | some lm =>
      match getk lm (r.level.getD 0) with
      | none => m
      | some st =>
          setk m nm (setk lm (r.level.getD 0)
            ⟨st.plays + 1, some (updLast dv r.date st.lastPlayed), st.difficultyVal⟩)

/-- buildAdversaryStats of the source. -/
def buildAdversaryStats (dv : String → Int) (plays : List Play)
    (advs : List Adversary) : List (String × List (Int × AdvLevelStats)) :=
  plays.foldl (recordAdvPlay dv) (initAdvStats advs)

/-- One adversary recommendation row. -/
structure AdvRec where
  adversary : String
  level : Int
  difficultyVal : Int
  lastPlayed : Option String
  reason : String
deriving DecidableEq

/-- One step of the level scan 0..6 in getAdversaryRecommendation:
levels missing from the map are skipped; a played level raises the
highest-played marker and, when its stored date is truthy, feeds the
most-recent-date maximum. -/
def advScanStep (dv : String → Int) (lm : List (Int × AdvLevelStats))
    (acc : Int × Option String) (i : Int) : Int × Option String :=
  match getk lm i with
  | none => acc
  | some st =>
    if 0 < st.plays then
      (max acc.1 i,
        match st.lastPlayed with
        | none => acc.2
        | some t => if t = "" then acc.2 else some (updLast dv t acc.2))
    else acc

/-- The levels 0..6 the recommendation scan walks. -/
def levelRange : List Int := [0, 1, 2, 3, 4, 5, 6]

/-- The level scan of getAdversaryRecommendation: highest played level
(or -1) and most recent play date across levels 0..6. -/
def advScan (dv : String → Int) (lm : List (Int × AdvLevelStats)) : Int × Option String :=
  levelRange.foldl (advScanStep dv lm) (-1, none)

/-- The recommendation row getAdversaryRecommendation builds for one
adversary before sorting. -/
def advRecFor (dv : String → Int) (fmtTs : Int → String)
    (stats : List (String × List (Int × AdvLevelStats))) (a : Adversary) : AdvRec :=
  let lm := (getk stats a.name).getD []
  let scan := advScan dv lm
  let nextLevel := min (scan.1 + 1) 6
  let diff :=
    if nextLevel = 0 then a.baseDifficulty
    else
      match a.levels.find? (fun lv => lv.levelNum == nextLevel) with
      | some lv => lv.difficultyVal
      | none => a.baseDifficulty
  ⟨a.name, nextLevel, diff, scan.2,
    match scan.2 with
    | none => "Never played"
    | some s => if s = "" then "Never played" else "Last played " ++ fmtTs (dv s)⟩

/-- The comparator sorting adversary recommendations: never played
first, then ascending by most recent play date. -/
def advCmp (dv : String → Int) (a b : AdvRec) : Int :=
  match a.lastPlayed, b.lastPlayed with
  | none, none => 0
  | none, some _ => -1
  | some _, none => 1
  | some x, some y => dv x - dv y

/-- The comparator as a boolean less-or-equal for the stable sort. -/
def advLe (dv : String → Int) (a b : AdvRec) : Bool := advCmp dv a b ≤ 0

/-- getAdversaryRecommendation of the source: one row per catalog
adversary, sorted never-played first then oldest first. -/
def getAdversaryRecommendation (dv : String → Int) (fmtTs : Int → String)
    (plays : List Play) (advs : List Adversary) : List AdvRec :=
  sortC (advLe dv) (advs.map (advRecFor dv fmtTs (buildAdversaryStats dv plays advs)))

/-- One spirit recommendation. -/
structure SpiritRec where
  spirit : Spirit
  reason : String
deriving DecidableEq

/-- The four complexity tiers, in iteration order. -/
def complexityLevels : List String := ["LOW", "MODERATE", "HIGH", "VERY HIGH"]

/-- Play count of the (c, p) cell, defaulting to 0. -/
def playsOf (m : List (String × PlayStats)) (c p : String) : Nat :=
  ((cell m c p).getD ⟨0, none⟩).plays

/-- Last-played date of the (c, p) cell, defaulting to none. -/
def lastOf (m : List (String × PlayStats)) (c p : String) : Option String :=
  ((cell m c p).getD ⟨0, none⟩).lastPlayed

/-- Placeholder spirit for the unreachable out-of-range index case. -/
def defaultSpirit : Spirit := ⟨"", "", "", ""⟩

/-- One step of the oldest-played loop: a member with a truthy
last-played date strictly before the current record replaces it. -/
def tierStep (dv : String → Int) (stats : List (String × PlayStats)) (player : String)
    (acc : Option Spirit × Int) (s : Spirit) : Option Spirit × Int :=
  match lastOf stats s.spirit player with
  | none => acc
  | some t => if t = "" then acc else if dv t < acc.2 then (some s, dv t) else acc

/-- The oldest-played loop of getRecommendations, seeded with the
current time (new Date()). -/
def tierLoop (dv : String → Int) (now : Int) (stats : List (String × PlayStats))
    (player : String) (cs : List Spirit) : Option Spirit × Int :=
  cs.foldl (tierStep dv stats player) (none, now)

/-- The recommendation getRecommendations computes for one player and
one complexity tier (cs is the catalog filtered to the tier). -/
def recForTier (dv : String → Int) (fmtTs : Int → String) (now : Int)
    (pickIdx : Nat → Nat) (stats : List (String × PlayStats)) (player : String)
    (cs : List Spirit) : Option SpiritRec :=
  let unplayed := cs.filter (fun s => playsOf stats s.spirit player == 0)
  if 0 < unplayed.length then
    some ⟨unplayed.getD (pickIdx unplayed.length) defaultSpirit, "Never played"⟩
  else
    match tierLoop dv now stats player cs with
    | (some s, ts) => some ⟨s, "Last played " ++ fmtTs ts⟩
    | (none, _) => none

/-- Conditional assignment: a computed recommendation is stored, an
absent one leaves the map unchanged. -/
def setOpt {κ α : Type} [DecidableEq κ] (m : List (κ × α)) (k : κ) : Option α → List (κ × α)
  | some r => setk m k r
  | none => m

/-- getRecommendations of the source: per player, per complexity tier. -/
def getRecommendations (dv : String → Int) (fmtTs : Int → String) (now : Int)
    (pickIdx : Nat → Nat) (plays : List Play) (spirits : List Spirit) :
    List (String × List (String × SpiritRec)) :=
  (uniquePlayers plays).foldl (fun acc player =>
    setk acc player
      (complexityLevels.foldl (fun inner comp =>
        setOpt inner comp
          (recForTier dv fmtTs now pickIdx (buildPlayStats dv plays spirits) player
            (spirits.filter (fun s => s.complexity == comp)))) [])) []

/-- A value projected out of a row for sorting: a count, a date string,
or an optional spirit attribute. -/
inductive SortVal where
  | n (v : Nat)
  | s (v : String)
  | o (v : Option String)
deriving DecidableEq

/-- JS less-than on projected sort values; comparisons against
undefined are false. -/
def ltVal : SortVal → SortVal → Bool
  | .n x, .n y => x < y
  | .s x, .s y => strLt x y
  | .o x, .o y =>
    match x, y with
    | some u, some v => strLt u v
    | _, _ => false
  | _, _ => false

/-- Dynamic access to a spirit attribute by field name. -/
def spiritField (k : String) (sp : Spirit) : Option String :=
  if k = "spirit" then some sp.spirit
  else if k = "complexity" then some sp.complexity
  else if k = "source" then some sp.sourceSet
  else if k = "image_url" then some sp.imageUrl
  else none

/-- Character-list prefix test. -/
def prefixCheck : List Char → List Char → Bool
  | [], _ => true
  | _ :: _, [] => false
  | c :: cs, d :: ds => if c = d then prefixCheck cs ds else false

/-- Test for the composite per-player sort keys. -/
def startsWithPlayer (s : String) : Bool := prefixCheck "player-".data s.data

/-- Splitting a sort key on dashes (String.prototype.split). -/
def splitDashAux : List Char → List Char → List String
  | [], cur => [String.mk cur.reverse]
  | c :: rest, cur =>
      if c = '-' then String.mk cur.reverse :: splitDashAux rest []
      else splitDashAux rest (c :: cur)

/-- Splitting a sort key on dashes. -/
def splitDash (s : String) : List String := splitDashAux s.data []

/-- The sort projection of one row under a sort key: missing counts
default to 0 and missing dates to the empty string before comparing. -/
def sortValueOf (key : String) (row : PlayStats) : SortVal :=
  if startsWithPlayer key then
    let pk := (splitDash key).getD 1 ""
    let sk := (splitDash key).getD 2 ""
    if sk = "plays" then
      SortVal.n (match getk row.playerStats pk with | some st => st.plays | none => 0)
    else
      SortVal.s (match getk row.playerStats pk with
        | some st => if sk = "lastPlayed" then st.lastPlayed.getD "" else ""
        | none => "")
  else SortVal.o (spiritField key row.spirit)

/-- The row comparator of sortedPlayStats for a key and direction. -/
def cmpRow (key : String) (asc : Bool) (a b : PlayStats) : Int :=
  if ltVal (sortValueOf key a) (sortValueOf key b) then (if asc then -1 else 1)
  else if ltVal (sortValueOf key b) (sortValueOf key a) then (if asc then 1 else -1)
  else 0

/-- The row comparator as a boolean less-or-equal for the stable sort. -/
def rowLe (key : String) (asc : Bool) (a b : PlayStats) : Bool := cmpRow key asc a b ≤ 0

/-- sortedPlayStats of the source: the rows of the statistics map, in
insertion order when no sort key is chosen, else stably sorted. -/
def sortedPlayStats (sortConfig : Option (String × Bool))
    (stats : List (String × PlayStats)) : List PlayStats :=
  match sortConfig with
  | none => stats.map Prod.snd
  | some (key, asc) => sortC (rowLe key asc) (stats.map Prod.snd)

/-- handleSort of the source: clicking a key selects it ascending,
except that clicking the already-selected ascending key flips to
descending. -/
def handleSort (cfg : Option (String × Bool)) (key : String) : Option (String × Bool) :=
  match cfg with
  | some (k, true) => if k = key then some (key, false) else some (key, true)
  | _ => some (key, true)

/-- Play count of a row for a player, defaulting to 0. -/
def playsOfRow (row : PlayStats) (p : String) : Nat :=
  match getk row.playerStats p with
  | some st => st.plays
  | none => 0

/-- Total plays of one player (the summary reduce). -/
def summaryTotal (stats : List (String × PlayStats)) (p : String) : Nat :=
  (stats.map Prod.snd).foldl (fun t row => t + playsOfRow row p) 0

/-- Most played spirit of one player (the summary reduce; strict
comparison keeps the earliest maximum). -/
def summaryFav (stats : List (String × PlayStats)) (p : String) : String × Nat :=
  (stats.map Prod.snd).foldl (fun most row =>
    if most.2 < playsOfRow row p then (row.spirit.spirit, playsOfRow row p) else most)
    ("", 0)

/-- The favorite as displayed: hidden unless its play count is
positive. -/
def displayFavorite (stats : List (String × PlayStats)) (p : String) :
    Option (String × Nat) :=
  if 0 < (summaryFav stats p).2 then some (summaryFav stats p) else none

/-- Ambient state a render reads besides its input collections: the
current time and the random index source. -/
structure Ambient where
  now : Int
  pickIdx : Nat → Nat

/-- Everything the core derives in one pass. -/
structure CoreOut where
  charStats : List (String × PlayStats)
  advStats : List (String × List (Int × AdvLevelStats))
  charRecs : List (String × List (String × SpiritRec))
  advRecs : List AdvRec
  summaries : List (String × Nat × Option (String × Nat))

/-- One full run of the core over fixed inputs and ambient state. -/
def runCore (dv : String → Int) (fmtTs : Int → String) (amb : Ambient)
    (plays : List Play) (spirits : List Spirit) (advs : List Adversary) : CoreOut :=
  ⟨buildPlayStats dv plays spirits,
   buildAdversaryStats dv plays advs,
   getRecommendations dv fmtTs amb.now amb.pickIdx plays spirits,
   getAdversaryRecommendation dv fmtTs plays advs,
   (uniquePlayers plays).map (fun p =>
     (p, summaryTotal (buildPlayStats dv plays spirits) p,
      displayFavorite (buildPlayStats dv plays spirits) p))⟩

/-- Timestamps of the tier members carrying a truthy last-played date
(the candidates of the oldest-played loop). -/
def datedTs (dv : String → Int) (stats : List (String × PlayStats)) (player : String)
    (cs : List Spirit) : List Int :=
  cs.filterMap (fun s =>
    match lastOf stats s.spirit player with
    | some t => if t = "" then none else some (dv t)
    | none => none)

/-- Selector of the tier members with a truthy last-played date whose
timestamp equals m. -/
def tsPred (dv : String → Int) (stats : List (String × PlayStats)) (player : String)
    (m : Int) (s : Spirit) : Bool :=
  match lastOf stats s.spirit player with
  | some t => !(t == "") && (dv t == m)
  | none => false

/-- Whether level i of the level map has at least one recorded play. -/
def levelPlayed (lm : List (Int × AdvLevelStats)) (i : Int) : Bool :=
  match getk lm i with
  | some st => 0 < st.plays
  | none => false

/-- The levels 0..6 present in the map with at least one play. -/
def playedLevels (lm : List (Int × AdvLevelStats)) : List Int :=
  levelRange.filter (levelPlayed lm)

/-- The highest played level of the map, or -1 when none is played. -/
def highestPlayed (lm : List (Int × AdvLevelStats)) : Int :=
  (playedLevels lm).foldl max (-1)

/-- The truthy stored date of level i, when that level is played. -/
def advDateAt (lm : List (Int × AdvLevelStats)) (i : Int) : Option String :=
  match getk lm i with
  | some st =>
    if 0 < st.plays then
      match st.lastPlayed with
      | some t => if t = "" then none else some t
      | none => none
    else none
  | none => none

/-- The truthy stored dates of the played levels 0..6. -/
def advPlayedDates (lm : List (Int × AdvLevelStats)) : List String :=
  levelRange.filterMap (advDateAt lm)

/-- Whether a participant entry hits an existing cell of the spirit
statistics map. -/
def entryActive (m : List (String × PlayStats)) (e : PlayerEntry) : Bool :=
  match getk m e.spirit with
  | some ps => (getk ps.playerStats e.player).isSome
  | none => false

/-- Whether a play record hits an existing cell of the adversary
statistics map. -/
def advPlayActive (m : List (String × List (Int × AdvLevelStats))) (r : Play) : Bool :=
  match r.adversary with
  | some nm =>
    if nm = "" then false else
    match getk m nm with
    | some lm => (getk lm (r.level.getD 0)).isSome
    | none => false
  | none => false

/-- Concrete catalog for the C1 example instances. -/
def c1spirits : List Spirit := [⟨"X", "LOW", "JE", "img"⟩]

/-- Concrete record for the C1 example instances. -/
def c1r1 : Play := ⟨"2024-01-01", [⟨"A", "X"⟩], none, none⟩

/-- Concrete record for the C1 example instances. -/
def c1r2 : Play := ⟨"2024-03-15", [⟨"A", "X"⟩], none, none⟩

/-- Concrete date semantics for the C1 example instances. -/
def c1dv : String → Int := fun s =>
  if s = "2024-03-15" then 3 else if s = "2024-01-01" then 1 else 0

/-- Concrete catalog for the C5 example instance. -/
def c5spirits : List Spirit := [⟨"X", "LOW", "JE", "img"⟩]

/-- Concrete log for the C5 example instance: player A appears, but
never on spirit X. -/
def c5plays : List Play := [⟨"2024-01-01", [⟨"A", "Y"⟩], none, none⟩]

/-- Concrete recognized players for the C6 example instance. -/
def c6ps : List String := ["A"]

/-- Concrete log for the C6 example instance: one entry with an
unknown player, one with an unknown spirit. -/
def c6plays : List Play :=
  [⟨"2024-01-01", [⟨"A", "X"⟩, ⟨"B", "X"⟩, ⟨"A", "Z"⟩], none, none⟩]

/-- Concrete spirit catalog for the C6 example instance. -/
def c6spirits : List Spirit := [⟨"X", "LOW", "JE", "img"⟩]

/-- Concrete adversary catalog for the C6 example instance. -/
def c6advs : List Adversary := [⟨"BP", 1, "esc", "url", []⟩]

/-- Concrete record with an unknown adversary for the C6 example
instance. -/
def c6r : Play := ⟨"2024-01-01", [], some "QQ", none⟩

/-- Concrete adversary catalog for the C10 example instance: one
adversary declaring only level 1. -/
def c10advs : List Adversary := [⟨"BP", 1, "esc", "url", [⟨1, 3, "fear", "fx"⟩]⟩]

/-- Concrete record for the C10 example instance: a known adversary at
undeclared level 4. -/
def c10r : Play := ⟨"2024-01-01", [], some "BP", some 4⟩

/-- Concrete adversary for the C3 example instance, declaring levels 1
and 2. -/
def c3a : Adversary := ⟨"BP", 1, "esc", "url", [⟨1, 3, "f1", "g1"⟩, ⟨2, 4, "f2", "g2"⟩]⟩

/-- Concrete adversary catalog for the C3 example instance. -/
def c3advs : List Adversary := [c3a]

/-- Concrete log for the C3 example instance: plays at levels 0 and 1. -/
def c3plays : List Play :=
  [⟨"2024-01-01", [], some "BP", some 0⟩, ⟨"2024-01-02", [], some "BP", some 1⟩]

/-- Concrete date semantics for the C3 example instance. -/
def c3dv : String → Int := fun s =>
  if s = "2024-01-02" then 2 else if s = "2024-01-01" then 1 else 0

/-- The level map the C3 example instance aggregates to. -/
def c3lm : List (Int × AdvLevelStats) :=
  [(0, ⟨1, some "2024-01-01", 1⟩), (1, ⟨1, some "2024-01-02", 3⟩), (2, ⟨0, none, 4⟩)]

/-- Concrete adversary catalog for the C4 example instance: X never
played, Y played once. -/
def c4advs : List Adversary := [⟨"X", 2, "e", "u", []⟩, ⟨"Y", 3, "e", "u", []⟩]

/-- Concrete log for the C4 example instance. -/
def c4plays : List Play := [⟨"2024-01-01", [], some "Y", some 0⟩]

/-- Concrete date semantics for the C4 example instance. -/
def c4dv : String → Int := fun s => if s = "2024-01-01" then 1 else 0

/-- Concrete spirit catalog for the C2 example instances. -/
def c2spirits : List Spirit := [⟨"X", "LOW", "s", "i"⟩]

/-- Concrete log for the C2 example instances: one play of X by A. -/
def c2plays : List Play := [⟨"d1", [⟨"A", "X"⟩], none, none⟩]

/-- Concrete date semantics for the C2 example instances: the one play
parses to timestamp 5. -/
def c2dv : String → Int := fun s => if s = "d1" then 5 else 0

/-- Concrete statistics map for the C8 example instance: counts 0, 2,
1 for player A. -/
def c8stats : List (String × PlayStats) :=
  [("S1", ⟨⟨"S1", "LOW", "s", "i"⟩, [("A", ⟨0, none⟩)]⟩),
   ("S2", ⟨⟨"S2", "LOW", "s", "i"⟩, [("A", ⟨2, some "2024-01-02"⟩)]⟩),
   ("S3", ⟨⟨"S3", "LOW", "s", "i"⟩, [("A", ⟨1, some "2024-01-01"⟩)]⟩)]

/-- Concrete statistics map for the C7 example instance: player A has
3 plays of Jagged Earth and 1 of River. -/
def c7stats : List (String × PlayStats) :=
  [("Jagged Earth", ⟨⟨"Jagged Earth", "HIGH", "s", "i"⟩, [("A", ⟨3, some "2024-01-03"⟩)]⟩),
   ("River", ⟨⟨"River", "LOW", "s", "i"⟩, [("A", ⟨1, some "2024-01-01"⟩)]⟩)]

theorem getk_setk {κ α : Type} [DecidableEq κ] (m : List (κ × α)) (k k' : κ) (v : α) :
    getk (setk m k v) k' = if k = k' then some v else getk m k' := by
  induction m with
  | nil => simp [getk, setk]
  | cons hd tl ih =>
    obtain ⟨k0, v0⟩ := hd
    simp only [setk]
    by_cases h0 : k0 = k
    · subst h0
      simp only [if_pos rfl, getk]
      by_cases h1 : k0 = k'
      · simp [h1]
      · simp [h1]
    · simp only [if_neg h0, getk, ih]
      by_cases h1 : k0 = k'
      · subst h1
        have hkk : ¬ k = k0 := fun he => h0 he.symm
        simp [hkk]
      · simp [h1]

theorem getk_setk_isSome {κ α : Type} [DecidableEq κ] (m : List (κ × α)) (k k' : κ)
    (v : α) (w : α) (h : getk m k = some w) :
    (getk (setk m k v) k').isSome = (getk m k').isSome := by
  rw [getk_setk]
  by_cases h1 : k = k'
  · subst h1; simp [h]
  · simp [h1]

theorem mem_foldl_dedup (l acc : List String) (y : String) :
    (y ∈ l.foldl (fun acc x => if x ∈ acc then acc else acc ++ [x]) acc) ↔
      (y ∈ acc ∨ y ∈ l) := by
  induction l generalizing acc with
  | nil => simp
  | cons x tl ih =>
    simp only [List.foldl_cons]
    by_cases hx : x ∈ acc
    · rw [if_pos hx, ih, List.mem_cons]
      constructor
      · rintro (h | h)
        · exact Or.inl h
        · exact Or.inr (Or.inr h)
      · rintro (h | h | h)
        · exact Or.inl h
        · exact Or.inl (h ▸ hx)
        · exact Or.inr h
    · simp only [if_neg hx, ih, List.mem_append, List.mem_cons, List.mem_singleton,
        List.not_mem_nil, or_false]
      tauto

theorem dedupF_mem (l : List String) (y : String) : y ∈ dedupF l ↔ y ∈ l := by
  unfold dedupF
  rw [mem_foldl_dedup]
  simp

theorem insertC_perm {α : Type} (le : α → α → Bool) (x : α) (l : List α) :
    (insertC le x l).Perm (x :: l) := by
  induction l with
  | nil => exact List.Perm.refl _
  | cons y ys ih =>
    simp only [insertC]
    cases hle : le y x
    · simp only [Bool.false_eq_true, if_false]
      exact List.Perm.refl _
    · simp only [if_true]
      exact ((ih.cons y).trans (List.Perm.swap x y ys))

theorem foldl_insertC_perm {α : Type} (le : α → α → Bool) (l acc : List α) :
    (l.foldl (fun a x => insertC le x a) acc).Perm (acc ++ l) := by
  induction l generalizing acc with
  | nil => simp
  | cons x tl ih =>
    simp only [List.foldl_cons]
    refine (ih _).trans ?_
    refine (List.Perm.append_right tl (insertC_perm le x acc)).trans ?_
    rw [List.cons_append]
    exact List.perm_middle.symm

theorem sortC_perm {α : Type} (le : α → α → Bool) (l : List α) :
    (sortC le l).Perm l := by
  simpa [sortC] using foldl_insertC_perm le l []

theorem playersFlat_mem (plays : List Play) (p : String) :
    p ∈ playersFlat plays ↔ ∃ r, r ∈ plays ∧ ∃ e, e ∈ r.players ∧ e.player = p := by
  induction plays with
  | nil => simp [playersFlat]
  | cons r tl ih =>
    simp only [playersFlat, List.foldr_cons, List.mem_append, List.mem_map,
      List.mem_cons] at ih ⊢
    rw [ih]
    constructor
    · rintro (⟨e, he, hep⟩ | ⟨r1, hr1, he⟩)
      · exact ⟨r, Or.inl rfl, e, he, hep⟩
      · exact ⟨r1, Or.inr hr1, he⟩
    · rintro ⟨r1, hra | hrb, e, he, hep⟩
      · exact Or.inl ⟨e, hra ▸ he, hep⟩
      · exact Or.inr ⟨r1, hrb, e, he, hep⟩

theorem uniquePlayers_mem (plays : List Play) (p : String) :
    p ∈ uniquePlayers plays ↔ ((p = "A" ∨ p = "E") ∧ p ∈ playersFlat plays) := by
  unfold uniquePlayers
  rw [(sortC_perm _ _).mem_iff, List.mem_filter, dedupF_mem]
  simp only [Bool.or_eq_true, beq_iff_eq]
  tauto

theorem matchesPair_eq_true (c p : String) (e : PlayerEntry) :
    matchesPair c p e = true ↔ (e.spirit = c ∧ e.player = p) := by
  simp [matchesPair]

theorem updLast_idem (dv : String → Int) (d : String) (x : Option String) :
    updLast dv d (some (updLast dv d x)) = updLast dv d x := by
  cases x with
  | none =>
    simp only [updLast, ite_self]
  | some cur =>
    by_cases hc : cur = "" ∨ dv cur < dv d
    · simp only [updLast, if_pos hc, ite_self]
    · simp only [updLast, if_neg hc]

theorem cell_recordEntry_self (dv : String → Int) (d : String)
    (m : List (String × PlayStats)) (e : PlayerEntry) :
    cell (recordEntry dv d m e) e.spirit e.player =
      (cell m e.spirit e.player).map
        (fun st => ⟨st.plays + 1, some (updLast dv d st.lastPlayed)⟩) := by
  unfold recordEntry cell
  cases h1 : getk m e.spirit with
  | none => simp [h1]
  | some ps =>
    cases h2 : getk ps.playerStats e.player with
    | none => simp [h1, h2]
    | some st => simp [h1, h2, getk_setk]

theorem cell_recordEntry_other (dv : String → Int) (d : String)
    (m : List (String × PlayStats)) (e : PlayerEntry) (c p : String)
    (h : ¬(e.spirit = c ∧ e.player = p)) :
    cell (recordEntry dv d m e) c p = cell m c p := by
  unfold recordEntry
  cases h1 : getk m e.spirit with
  | none => simp
  | some ps =>
    cases h2 : getk ps.playerStats e.player with
    | none => simp [h2]
    | some st =>
      unfold cell
      simp only [h2]
      by_cases hs : e.spirit = c
      · have hp : ¬ e.player = p := fun hp => h ⟨hs, hp⟩
        rw [getk_setk, if_pos hs, ← hs, h1]
        simp [getk_setk, hp]
      · rw [getk_setk, if_neg hs]

theorem cell_playFold (dv : String → Int) (d : String) (c p : String) :
    ∀ (l : List PlayerEntry) (m : List (String × PlayStats)),
    cell (l.foldl (recordEntry dv d) m) c p =
      (cell m c p).map (fun st =>
        ⟨st.plays + l.countP (matchesPair c p),
         if l.countP (matchesPair c p) = 0 then st.lastPlayed
         else some (updLast dv d st.lastPlayed)⟩) := by
  intro l
  induction l with
  | nil =>
    intro m
    cases h : cell m c p <;> simp [h]
  | cons e tl ih =>
    intro m
    simp only [List.foldl_cons]
    rw [ih]
    by_cases he : e.spirit = c ∧ e.player = p
    · obtain ⟨hs, hp⟩ := he
      subst hs; subst hp
      have hm : matchesPair e.spirit e.player e = true := by
        rw [matchesPair_eq_true]
        exact ⟨rfl, rfl⟩
      rw [cell_recordEntry_self]
      cases h : cell m e.spirit e.player with
      | none => simp
      | some st =>
        by_cases hcnt : tl.countP (matchesPair e.spirit e.player) = 0
        · simp [List.countP_cons, hm, hcnt]
        · simp [List.countP_cons, hm, hcnt, updLast_idem]
          omega
    · have hm : matchesPair c p e = false := by
        have : ¬ (matchesPair c p e = true) := by
          rw [matchesPair_eq_true]; exact he
        simp [this]
      rw [cell_recordEntry_other dv d m e c p he]
      simp [List.countP_cons, hm]

theorem pairCount_cons (c p : String) (r : Play) (tl : List Play) :
    pairCount c p (r :: tl) = r.players.countP (matchesPair c p) + pairCount c p tl := by
  simp [pairCount]

theorem contribDates_cons (c p : String) (r : Play) (tl : List Play) :
    contribDates c p (r :: tl) =
      if 0 < r.players.countP (matchesPair c p) then r.date :: contribDates c p tl
      else contribDates c p tl := by
  unfold contribDates
  rw [List.filter_cons]
  by_cases h : 0 < r.players.countP (matchesPair c p) <;> simp [h]

theorem cell_logFold (dv : String → Int) (c p : String) :
    ∀ (l : List Play) (m : List (String × PlayStats)),
    cell (l.foldl (fun acc r => r.players.foldl (recordEntry dv r.date) acc) m) c p =
      (cell m c p).map (fun st =>
        ⟨st.plays + pairCount c p l, foldDates dv (contribDates c p l) st.lastPlayed⟩) := by
  intro l
  induction l with
  | nil =>
    intro m
    cases h : cell m c p <;> simp [h, pairCount, contribDates, foldDates]
  | cons r tl ih =>
    intro m
    simp only [List.foldl_cons]
    rw [ih, cell_playFold]
    cases h : cell m c p with
    | none => simp
    | some st =>
      by_cases hr : r.players.countP (matchesPair c p) = 0
      · simp [pairCount_cons, contribDates_cons, hr]
      · have hr2 : 0 < r.players.countP (matchesPair c p) := Nat.pos_of_ne_zero hr
        simp [pairCount_cons, contribDates_cons, hr, hr2, foldDates, Nat.add_assoc]

theorem getk_foldl_setk_const {κ α : Type} [DecidableEq κ] (l : List κ) (v : α) (y : κ) :
    ∀ m, getk (l.foldl (fun m x => setk m x v) m) y = if y ∈ l then some v else getk m y := by
  induction l with
  | nil => intro m; simp
  | cons x tl ih =>
    intro m
    simp only [List.foldl_cons, ih, getk_setk, List.mem_cons]
    by_cases h1 : y ∈ tl
    · simp [h1]
    · by_cases h2 : x = y
      · simp [h1, h2]
      · have : ¬ y = x := fun he => h2 he.symm
        simp [h1, h2, this]

theorem getk_initPlayerStats (players : List String) (p : String) :
    getk (initPlayerStats players) p = if p ∈ players then some ⟨0, none⟩ else none := by
  unfold initPlayerStats
  rw [getk_foldl_setk_const]
  simp [getk]

theorem cell_initStats_aux (spirits : List Spirit) (players : List String) (c p : String) :
    ∀ m, cell (spirits.foldl (fun m sp => setk m sp.spirit ⟨sp, initPlayerStats players⟩) m) c p =
      if c ∈ spirits.map Spirit.spirit then (if p ∈ players then some ⟨0, none⟩ else none)
      else cell m c p := by
  induction spirits with
  | nil => intro m; simp
  | cons sp tl ih =>
    intro m
    simp only [List.foldl_cons, ih, List.map_cons, List.mem_cons]
    by_cases h1 : c ∈ tl.map Spirit.spirit
    · simp [h1]
    · by_cases h2 : sp.spirit = c
      · simp [h1, h2, cell, getk_setk, getk_initPlayerStats]
      · have : ¬ c = sp.spirit := fun he => h2 he.symm
        simp [h1, h2, this, cell, getk_setk]

theorem cell_initStats (spirits : List Spirit) (players : List String) (c p : String) :
    cell (initStats spirits players) c p =
      if c ∈ spirits.map Spirit.spirit ∧ p ∈ players then some ⟨0, none⟩ else none := by
  unfold initStats
  rw [cell_initStats_aux]
  by_cases h1 : c ∈ spirits.map Spirit.spirit
  · by_cases h2 : p ∈ players <;> simp [h1, h2, cell, getk]
  · simp [h1, cell, getk]

theorem cell_buildPlayStatsWith (dv : String → Int) (players : List String)
    (plays : List Play) (spirits : List Spirit) (c p : String) :
    cell (buildPlayStatsWith dv players plays spirits) c p =
      if c ∈ spirits.map Spirit.spirit ∧ p ∈ players then
        some ⟨pairCount c p plays, foldDates dv (contribDates c p plays) none⟩
      else none := by
  unfold buildPlayStatsWith
  rw [cell_logFold, cell_initStats]
  by_cases h : c ∈ spirits.map Spirit.spirit ∧ p ∈ players
  · simp [h]
  · simp [h]

theorem foldDates_some_spec (dv : String → Int) (ds : List String) (a : String)
    (hds : ∀ d ∈ ds, d ≠ "") (ha : a ≠ "") :
    ∃ b, foldDates dv ds (some a) = some b ∧ b ≠ "" ∧ (b = a ∨ b ∈ ds) ∧ dv a ≤ dv b ∧
      ∀ d ∈ ds, dv d ≤ dv b := by
  induction ds generalizing a with
  | nil => exact ⟨a, rfl, ha, Or.inl rfl, le_refl _, by simp⟩
  | cons d tl ih =>
    have hd : d ≠ "" := hds d (List.mem_cons_self d tl)
    have htl : ∀ x ∈ tl, x ≠ "" := fun x hx => hds x (List.mem_cons_of_mem d hx)
    have hstep : foldDates dv (d :: tl) (some a) =
        foldDates dv tl (some (updLast dv d (some a))) := rfl
    by_cases hlt : dv a < dv d
    · have hupd : updLast dv d (some a) = d := by
        simp only [updLast]
        rw [if_pos (Or.inr hlt)]
      obtain ⟨b, hb, hbne, hbmem, hble, hbound⟩ := ih d htl hd
      refine ⟨b, by rw [hstep, hupd]; exact hb, hbne, ?_, le_trans (le_of_lt hlt) hble, ?_⟩
      · rcases hbmem with h | h
        · exact Or.inr (h ▸ List.mem_cons_self d tl)
        · exact Or.inr (List.mem_cons_of_mem d h)
      · intro x hx
        rcases List.mem_cons.mp hx with h | h
        · exact h ▸ hble
        · exact hbound x h
    · have hupd : updLast dv d (some a) = a := by
        simp only [updLast]
        rw [if_neg]
        rintro (h | h)
        · exact ha h
        · exact hlt h
      obtain ⟨b, hb, hbne, hbmem, hble, hbound⟩ := ih a htl ha
      refine ⟨b, by rw [hstep, hupd]; exact hb, hbne, ?_, hble, ?_⟩
      · rcases hbmem with h | h
        · exact Or.inl h
        · exact Or.inr (List.mem_cons_of_mem d h)
      · intro x hx
        rcases List.mem_cons.mp hx with h | h
        · exact h ▸ (le_trans (not_lt.mp hlt) hble)
        · exact hbound x h

theorem foldDates_max (dv : String → Int) (ds : List String) (hne : ds ≠ [])
    (hds : ∀ d ∈ ds, d ≠ "") :
    ∃ b, foldDates dv ds none = some b ∧ b ∈ ds ∧ ∀ d ∈ ds, dv d ≤ dv b := by
  cases ds with
  | nil => exact absurd rfl hne
  | cons d tl =>
    have hd : d ≠ "" := hds d (List.mem_cons_self d tl)
    have htl : ∀ x ∈ tl, x ≠ "" := fun x hx => hds x (List.mem_cons_of_mem d hx)
    have hstep : foldDates dv (d :: tl) none = foldDates dv tl (some d) := rfl
    obtain ⟨b, hb, hbne, hbmem, hble, hbound⟩ := foldDates_some_spec dv tl d htl hd
    refine ⟨b, by rw [hstep]; exact hb, ?_, ?_⟩
    · rcases hbmem with h | h
      · exact h ▸ List.mem_cons_self d tl
      · exact List.mem_cons_of_mem d h
    · intro x hx
      rcases List.mem_cons.mp hx with h | h
      · exact h ▸ hble
      · exact hbound x h

theorem foldDates_isSome (dv : String → Int) (ds : List String) (a : String) :
    (foldDates dv ds (some a)).isSome = true := by
  induction ds generalizing a with
  | nil => rfl
  | cons d tl ih => exact ih (updLast dv d (some a))

theorem foldDates_none_iff (dv : String → Int) (ds : List String) :
    foldDates dv ds none = none ↔ ds = [] := by
  cases ds with
  | nil => simp [foldDates]
  | cons d tl =>
    constructor
    · intro h
      have hs : foldDates dv (d :: tl) none = foldDates dv tl (some (updLast dv d none)) := rfl
      rw [hs] at h
      have := foldDates_isSome dv tl (updLast dv d none)
      rw [h] at this
      simp at this
    · intro h
      simp at h

theorem contribDates_nil_iff (c p : String) (l : List Play) :
    contribDates c p l = [] ↔ pairCount c p l = 0 := by
  induction l with
  | nil => simp [contribDates, pairCount]
  | cons r tl ih =>
    rw [contribDates_cons, pairCount_cons]
    by_cases h : 0 < r.players.countP (matchesPair c p)
    · have h0 : r.players.countP (matchesPair c p) + pairCount c p tl ≠ 0 := by omega
      simp [h, h0]
    · have h0 : r.players.countP (matchesPair c p) = 0 := by omega
      simp [h, h0, ih]

theorem contribDates_src (c p : String) (l : List Play) (t : String)
    (ht : t ∈ contribDates c p l) : ∃ r, r ∈ l ∧ r.date = t := by
  simp only [contribDates, List.mem_map, List.mem_filter] at ht
  obtain ⟨r, ⟨hr, _⟩, hd⟩ := ht
  exact ⟨r, hr, hd⟩

theorem pairCount_perm (c p : String) {l l' : List Play} (h : l.Perm l') :
    pairCount c p l = pairCount c p l' := by
  unfold pairCount
  exact (h.map _).sum_eq

theorem contribDates_perm (c p : String) {l l' : List Play} (h : l.Perm l') :
    (contribDates c p l).Perm (contribDates c p l') :=
  (h.filter _).map _

theorem uniquePlayers_mem_perm {plays plays' : List Play} (h : plays.Perm plays')
    (p : String) : p ∈ uniquePlayers plays ↔ p ∈ uniquePlayers plays' := by
  rw [uniquePlayers_mem, uniquePlayers_mem, playersFlat_mem, playersFlat_mem]
  simp only [h.mem_iff]

/-- C1 counterexample: a single record listing the pair (A, X) twice
yields an aggregated play count of 2 while exactly one record of the
log contains that pair, so the aggregated play count is not the number
of pair-containing play records. -/
theorem C1_record_count_cex :
    playsOf (buildPlayStats (fun _ => 0)
        [⟨"2024-01-01", [⟨"A", "X"⟩, ⟨"A", "X"⟩], none, none⟩]
        [⟨"X", "LOW", "JE", "img"⟩]) "X" "A" = 2 ∧
    (List.countP (fun r => r.players.any (matchesPair "X" "A"))
        [(⟨"2024-01-01", [⟨"A", "X"⟩, ⟨"A", "X"⟩], none, none⟩ : Play)]) = 1 := by
  decide

/-- C1 (amended): for every known character c and recognized
participant p, the aggregated cell exists; its play count equals the
number of (p, c) pair occurrences across the log (which is the number
of pair-containing records whenever no record repeats a pair); its
last-played date is absent exactly when no record contributes, and
otherwise is a contributing date of maximal timestamp; and permuting
the play log changes neither the play count nor the last-played
timestamp. -/
theorem C1_aggregation (dv : String → Int) (plays plays' : List Play)
    (spirits : List Spirit) (c p : String)
    (hperm : plays.Perm plays')
    (hc : c ∈ spirits.map Spirit.spirit)
    (hp : p ∈ uniquePlayers plays)
    (hdates : ∀ r ∈ plays, r.date ≠ "") :
    (cell (buildPlayStats dv plays spirits) c p).isSome = true ∧
    playsOf (buildPlayStats dv plays spirits) c p = pairCount c p plays ∧
    (lastOf (buildPlayStats dv plays spirits) c p = none ↔ pairCount c p plays = 0) ∧
    (∀ s, lastOf (buildPlayStats dv plays spirits) c p = some s →
      s ∈ contribDates c p plays ∧ ∀ t ∈ contribDates c p plays, dv t ≤ dv s) ∧
    playsOf (buildPlayStats dv plays' spirits) c p =
      playsOf (buildPlayStats dv plays spirits) c p ∧
    (lastOf (buildPlayStats dv plays' spirits) c p = none ↔
      lastOf (buildPlayStats dv plays spirits) c p = none) ∧
    (∀ s s', lastOf (buildPlayStats dv plays spirits) c p = some s →
      lastOf (buildPlayStats dv plays' spirits) c p = some s' → dv s = dv s') := by
  have hp' : p ∈ uniquePlayers plays' := (uniquePlayers_mem_perm hperm p).mp hp
  have hcell : cell (buildPlayStats dv plays spirits) c p =
      some ⟨pairCount c p plays, foldDates dv (contribDates c p plays) none⟩ := by
    rw [show buildPlayStats dv plays spirits =
        buildPlayStatsWith dv (uniquePlayers plays) plays spirits from rfl,
      cell_buildPlayStatsWith, if_pos ⟨hc, hp⟩]
  have hcell' : cell (buildPlayStats dv plays' spirits) c p =
      some ⟨pairCount c p plays', foldDates dv (contribDates c p plays') none⟩ := by
    rw [show buildPlayStats dv plays' spirits =
        buildPlayStatsWith dv (uniquePlayers plays') plays' spirits from rfl,
      cell_buildPlayStatsWith, if_pos ⟨hc, hp'⟩]
  have hdates' : ∀ r ∈ plays', r.date ≠ "" := fun r hr => hdates r (hperm.mem_iff.mpr hr)
  have hcw : ∀ d ∈ contribDates c p plays, d ≠ "" := by
    intro d hd
    obtain ⟨r, hr, hrd⟩ := contribDates_src c p plays d hd
    exact hrd ▸ hdates r hr
  have hcw' : ∀ d ∈ contribDates c p plays', d ≠ "" := by
    intro d hd
    obtain ⟨r, hr, hrd⟩ := contribDates_src c p plays' d hd
    exact hrd ▸ hdates' r hr
  have hpc : pairCount c p plays' = pairCount c p plays := (pairCount_perm c p hperm).symm
  refine ⟨?_, ?_, ?_, ?_, ?_, ?_, ?_⟩
  · rw [hcell]
    rfl
  · simp [playsOf, hcell]
  · simp only [lastOf, hcell, Option.getD_some]
    rw [foldDates_none_iff, contribDates_nil_iff]
  · intro s hs
    simp only [lastOf, hcell, Option.getD_some] at hs
    by_cases hnil : contribDates c p plays = []
    · rw [hnil] at hs
      simp [foldDates] at hs
    · obtain ⟨b, hbf, hbmem, hbound⟩ := foldDates_max dv _ hnil hcw
      have hb : b = s := by
        rw [hbf] at hs
        exact Option.some.inj hs
      exact hb ▸ ⟨hbmem, hbound⟩
  · simp [playsOf, hcell, hcell', hpc]
  · simp only [lastOf, hcell, hcell', Option.getD_some]
    rw [foldDates_none_iff, foldDates_none_iff, contribDates_nil_iff,
      contribDates_nil_iff, hpc]
  · intro s s' hs hs'
    simp only [lastOf, hcell, Option.getD_some] at hs
    simp only [lastOf, hcell', Option.getD_some] at hs'
    by_cases hnil : contribDates c p plays = []
    · rw [hnil] at hs
      simp [foldDates] at hs
    · have hnil' : contribDates c p plays' ≠ [] := by
        intro h
        have hr2 := contribDates_perm c p hperm
        rw [h] at hr2
        have := hr2.length_eq
        simp at this
        exact hnil this
      obtain ⟨b, hbf, hbmem, hbound⟩ := foldDates_max dv _ hnil hcw
      obtain ⟨b', hbf', hbmem', hbound'⟩ := foldDates_max dv _ hnil' hcw'
      have hb : b = s := by
        rw [hbf] at hs
        exact Option.some.inj hs
      have hb' : b' = s' := by
        rw [hbf'] at hs'
        exact Option.some.inj hs'
      rw [← hb, ← hb']
      exact le_antisymm
        (hbound' b ((contribDates_perm c p hperm).mem_iff.mp hbmem))
        (hbound b' ((contribDates_perm c p hperm).mem_iff.mpr hbmem'))

theorem C1_aggregation_witness :
    (([c1r1, c1r2].Perm [c1r2, c1r1]) ∧ "X" ∈ c1spirits.map Spirit.spirit ∧
      "A" ∈ uniquePlayers [c1r1, c1r2] ∧ ∀ r ∈ [c1r1, c1r2], r.date ≠ "") ∧
    ((cell (buildPlayStats c1dv [c1r1, c1r2] c1spirits) "X" "A").isSome = true ∧
    playsOf (buildPlayStats c1dv [c1r1, c1r2] c1spirits) "X" "A" =
      pairCount "X" "A" [c1r1, c1r2] ∧
    (lastOf (buildPlayStats c1dv [c1r1, c1r2] c1spirits) "X" "A" = none ↔
      pairCount "X" "A" [c1r1, c1r2] = 0) ∧
    (∀ s, lastOf (buildPlayStats c1dv [c1r1, c1r2] c1spirits) "X" "A" = some s →
      s ∈ contribDates "X" "A" [c1r1, c1r2] ∧
      ∀ t ∈ contribDates "X" "A" [c1r1, c1r2], c1dv t ≤ c1dv s) ∧
    playsOf (buildPlayStats c1dv [c1r2, c1r1] c1spirits) "X" "A" =
      playsOf (buildPlayStats c1dv [c1r1, c1r2] c1spirits) "X" "A" ∧
    (lastOf (buildPlayStats c1dv [c1r2, c1r1] c1spirits) "X" "A" = none ↔
      lastOf (buildPlayStats c1dv [c1r1, c1r2] c1spirits) "X" "A" = none) ∧
    (∀ s s', lastOf (buildPlayStats c1dv [c1r1, c1r2] c1spirits) "X" "A" = some s →
      lastOf (buildPlayStats c1dv [c1r2, c1r1] c1spirits) "X" "A" = some s' →
      c1dv s = c1dv s')) :=
  ⟨⟨List.Perm.swap c1r2 c1r1 [], by decide, by decide, by decide⟩,
    C1_aggregation c1dv [c1r1, c1r2] [c1r2, c1r1] c1spirits "X" "A"
      (List.Perm.swap c1r2 c1r1 []) (by decide) (by decide) (by decide)⟩

/-- C5: after aggregation every catalog character has a cell for every
recognized participant, and a (character, participant) pair appearing
in no play record keeps play count 0 and no last-played date. -/
theorem C5_default_cells (dv : String → Int) (plays : List Play) (spirits : List Spirit)
    (c p : String) (hc : c ∈ spirits.map Spirit.spirit) (hp : p ∈ uniquePlayers plays)
    (hnone : ∀ r ∈ plays, ∀ e ∈ r.players, ¬(e.spirit = c ∧ e.player = p)) :
    (∀ c' p', c' ∈ spirits.map Spirit.spirit → p' ∈ uniquePlayers plays →
      (cell (buildPlayStats dv plays spirits) c' p').isSome = true) ∧
    cell (buildPlayStats dv plays spirits) c p = some ⟨0, none⟩ := by
  constructor
  · intro c' p' hc' hp'
    rw [show buildPlayStats dv plays spirits =
        buildPlayStatsWith dv (uniquePlayers plays) plays spirits from rfl,
      cell_buildPlayStatsWith, if_pos ⟨hc', hp'⟩]
    rfl
  · have hzero : pairCount c p plays = 0 := by
      unfold pairCount
      apply List.sum_eq_zero
      intro x hx
      simp only [List.mem_map] at hx
      obtain ⟨r, hr, hrx⟩ := hx
      rw [← hrx]
      apply List.countP_eq_zero.mpr
      intro e he
      have h1 : ¬ (matchesPair c p e = true) := by
        rw [matchesPair_eq_true]
        exact hnone r hr e he
      simp [h1]
    have hnil : contribDates c p plays = [] := (contribDates_nil_iff c p plays).mpr hzero
    rw [show buildPlayStats dv plays spirits =
        buildPlayStatsWith dv (uniquePlayers plays) plays spirits from rfl,
      cell_buildPlayStatsWith, if_pos ⟨hc, hp⟩, hzero, hnil]
    rfl

theorem C5_default_cells_witness :
    ("X" ∈ c5spirits.map Spirit.spirit ∧ "A" ∈ uniquePlayers c5plays ∧
      (∀ r ∈ c5plays, ∀ e ∈ r.players, ¬(e.spirit = "X" ∧ e.player = "A"))) ∧
    ((∀ c' p', c' ∈ c5spirits.map Spirit.spirit → p' ∈ uniquePlayers c5plays →
      (cell (buildPlayStats (fun _ => 0) c5plays c5spirits) c' p').isSome = true) ∧
    cell (buildPlayStats (fun _ => 0) c5plays c5spirits) "X" "A" = some ⟨0, none⟩) :=
  ⟨⟨by decide, by decide, by decide⟩,
    C5_default_cells (fun _ => 0) c5plays c5spirits "X" "A"
      (by decide) (by decide) (by decide)⟩

theorem recordEntry_inactive (dv : String → Int) (d : String)
    (m : List (String × PlayStats)) (e : PlayerEntry) (h : entryActive m e = false) :
    recordEntry dv d m e = m := by
  unfold recordEntry
  cases h1 : getk m e.spirit with
  | none => simp
  | some ps =>
    cases h2 : getk ps.playerStats e.player with
    | none => simp [h2]
    | some st =>
      exfalso
      unfold entryActive at h
      rw [h1] at h
      simp [h2] at h

theorem entryActive_eq_cell (m : List (String × PlayStats)) (e : PlayerEntry) :
    entryActive m e = (cell m e.spirit e.player).isSome := by
  unfold entryActive cell
  cases getk m e.spirit <;> simp

theorem cell_recordEntry_isSome (dv : String → Int) (d : String)
    (m : List (String × PlayStats)) (e' : PlayerEntry) (c p : String) :
    (cell (recordEntry dv d m e') c p).isSome = (cell m c p).isSome := by
  by_cases h : e'.spirit = c ∧ e'.player = p
  · obtain ⟨h1, h2⟩ := h
    subst h1
    subst h2
    rw [cell_recordEntry_self]
    cases cell m e'.spirit e'.player <;> simp
  · rw [cell_recordEntry_other dv d m e' c p h]

theorem entryActive_recordEntry (dv : String → Int) (d : String)
    (m : List (String × PlayStats)) (e' e : PlayerEntry) :
    entryActive (recordEntry dv d m e') e = entryActive m e := by
  rw [entryActive_eq_cell, entryActive_eq_cell, cell_recordEntry_isSome]

theorem entryActive_playFold (dv : String → Int) (d : String) :
    ∀ (l : List PlayerEntry) (m : List (String × PlayStats)) (e : PlayerEntry),
    entryActive (l.foldl (recordEntry dv d) m) e = entryActive m e := by
  intro l
  induction l with
  | nil => intro m e; rfl
  | cons x tl ih =>
    intro m e
    simp only [List.foldl_cons]
    rw [ih, entryActive_recordEntry]

theorem entryActive_logFold (dv : String → Int) :
    ∀ (l : List Play) (m : List (String × PlayStats)) (e : PlayerEntry),
    entryActive (l.foldl (fun acc r => r.players.foldl (recordEntry dv r.date) acc) m) e =
      entryActive m e := by
  intro l
  induction l with
  | nil => intro m e; rfl
  | cons r tl ih =>
    intro m e
    simp only [List.foldl_cons]
    rw [ih, entryActive_playFold]

theorem playFold_filter (dv : String → Int) (d : String) :
    ∀ (l : List PlayerEntry) (m : List (String × PlayStats)),
    l.foldl (recordEntry dv d) m = (l.filter (entryActive m)).foldl (recordEntry dv d) m := by
  intro l
  induction l with
  | nil => intro m; rfl
  | cons e tl ih =>
    intro m
    simp only [List.foldl_cons, List.filter_cons]
    cases hb : entryActive m e
    · simp only [Bool.false_eq_true, if_false]
      rw [recordEntry_inactive dv d m e hb, ih]
    · simp only [if_true]
      rw [List.foldl_cons, ih (recordEntry dv d m e)]
      congr 1
      apply List.filter_congr
      intro x hx
      rw [entryActive_recordEntry]

theorem logFold_filter_aux (dv : String → Int) (m0 : List (String × PlayStats)) :
    ∀ (l : List Play) (m : List (String × PlayStats)),
    (∀ e, entryActive m e = entryActive m0 e) →
    l.foldl (fun acc r => r.players.foldl (recordEntry dv r.date) acc) m =
      (l.map (fun r => Play.mk r.date (r.players.filter (entryActive m0)) r.adversary r.level)).foldl
        (fun acc r => r.players.foldl (recordEntry dv r.date) acc) m := by
  intro l
  induction l with
  | nil => intro m _; rfl
  | cons r tl ih =>
    intro m hm
    simp only [List.map_cons, List.foldl_cons]
    have h1 : r.players.foldl (recordEntry dv r.date) m =
        (r.players.filter (entryActive m0)).foldl (recordEntry dv r.date) m := by
      rw [playFold_filter]
      congr 1
      apply List.filter_congr
      intro x hx
      rw [hm]
    rw [← h1]
    exact ih _ (fun e => by rw [entryActive_playFold, hm])

theorem buildPlayStatsWith_filter (dv : String → Int) (ps : List String)
    (plays : List Play) (spirits : List Spirit) :
    buildPlayStatsWith dv ps plays spirits =
      buildPlayStatsWith dv ps
        (plays.map (fun r => Play.mk r.date
          (r.players.filter (entryActive (initStats spirits ps))) r.adversary r.level))
        spirits := by
  unfold buildPlayStatsWith
  exact logFold_filter_aux dv (initStats spirits ps) plays (initStats spirits ps) (fun e => rfl)

theorem entryActive_initStats (spirits : List Spirit) (ps : List String) (e : PlayerEntry) :
    entryActive (initStats spirits ps) e =
      (decide (e.spirit ∈ spirits.map Spirit.spirit) && decide (e.player ∈ ps)) := by
  rw [entryActive_eq_cell, cell_initStats]
  by_cases h1 : e.spirit ∈ spirits.map Spirit.spirit <;>
    by_cases h2 : e.player ∈ ps <;> simp [h1, h2]

theorem recordAdvPlay_inactive (dv : String → Int)
    (m : List (String × List (Int × AdvLevelStats))) (r : Play)
    (h : advPlayActive m r = false) : recordAdvPlay dv m r = m := by
  unfold recordAdvPlay
  cases hadv : r.adversary with
  | none => simp
  | some nm =>
    by_cases hnm : nm = ""
    · simp [hnm]
    · cases h1 : getk m nm with
      | none => simp [hnm, h1]
      | some lm =>
        cases h2 : getk lm (r.level.getD 0) with
        | none => simp [hnm, h1, h2]
        | some st =>
          exfalso
          unfold advPlayActive at h
          rw [hadv] at h
          simp only [if_neg hnm, h1, h2] at h
          simp at h

theorem advPlayActive_recordAdvPlay (dv : String → Int)
    (m : List (String × List (Int × AdvLevelStats))) (r' r : Play) :
    advPlayActive (recordAdvPlay dv m r') r = advPlayActive m r := by
  unfold recordAdvPlay
  cases hadv : r'.adversary with
  | none => rfl
  | some nm =>
    by_cases hnm : nm = ""
    · simp [hnm]
    · cases h1 : getk m nm with
      | none => simp [hnm, h1]
      | some lm =>
        cases h2 : getk lm (r'.level.getD 0) with
        | none => simp [hnm, h1, h2]
        | some st =>
          simp only [if_neg hnm, h1, h2]
          unfold advPlayActive
          cases hr : r.adversary with
          | none => rfl
          | some nm2 =>
            by_cases hnm2 : nm2 = ""
            · simp [hnm2]
            · simp only [if_neg hnm2]
              rw [getk_setk]
              by_cases heq : nm = nm2
              · rw [if_pos heq, ← heq, h1]
                simp [getk_setk_isSome lm (r'.level.getD 0) (r.level.getD 0) _ st h2]
              · rw [if_neg heq]

theorem advPlayActive_fold (dv : String → Int) :
    ∀ (l : List Play) (m : List (String × List (Int × AdvLevelStats))) (r : Play),
    advPlayActive (l.foldl (recordAdvPlay dv) m) r = advPlayActive m r := by
  intro l
  induction l with
  | nil => intro m r; rfl
  | cons x tl ih =>
    intro m r
    simp only [List.foldl_cons]
    rw [ih, advPlayActive_recordAdvPlay]

theorem buildAdversaryStats_skip (dv : String → Int) (l₁ l₂ : List Play) (r : Play)
    (advs : List Adversary) (h : advPlayActive (initAdvStats advs) r = false) :
    buildAdversaryStats dv (l₁ ++ r :: l₂) advs = buildAdversaryStats dv (l₁ ++ l₂) advs := by
  unfold buildAdversaryStats
  rw [List.foldl_append, List.foldl_append, List.foldl_cons]
  congr 1
  apply recordAdvPlay_inactive
  rw [advPlayActive_fold]
  exact h

theorem getk_initAdv_skip (nm : String) :
    ∀ (l : List Adversary) (m : List (String × List (Int × AdvLevelStats))),
    nm ∉ l.map Adversary.name →
    getk (l.foldl (fun m a => setk m a.name (lmOf a)) m) nm = getk m nm := by
  intro l
  induction l with
  | nil => intro m _; rfl
  | cons a tl ih =>
    intro m h
    simp only [List.map_cons, List.mem_cons] at h
    push_neg at h
    simp only [List.foldl_cons]
    rw [ih _ h.2, getk_setk, if_neg (fun he => h.1 he.symm)]

theorem getk_initAdvStats_mem (advs : List Adversary)
    (hnd : (advs.map Adversary.name).Nodup) (a : Adversary) (ha : a ∈ advs) :
    getk (initAdvStats advs) a.name = some (lmOf a) := by
  unfold initAdvStats
  suffices h : ∀ (l : List Adversary) (m : List (String × List (Int × AdvLevelStats))),
      (l.map Adversary.name).Nodup → a ∈ l →
      getk (l.foldl (fun m a => setk m a.name (lmOf a)) m) a.name = some (lmOf a) from
    h advs [] hnd ha
  intro l
  induction l with
  | nil => intro m _ hmem; simp at hmem
  | cons a0 tl ih =>
    intro m hnd0 hmem
    simp only [List.map_cons, List.nodup_cons] at hnd0
    rcases List.mem_cons.mp hmem with he | hm
    · subst he
      simp only [List.foldl_cons]
      rw [getk_initAdv_skip _ tl _ hnd0.1, getk_setk, if_pos rfl]
    · simp only [List.foldl_cons]
      exact ih _ hnd0.2 hm

theorem getk_lmOf_isSome (a : Adversary) (i : Int) :
    (getk (lmOf a) i).isSome = true ↔ (i = 0 ∨ i ∈ a.levels.map AdvLevel.levelNum) := by
  unfold lmOf
  suffices h : ∀ (lvls : List AdvLevel) (m : List (Int × AdvLevelStats)),
      ((getk (lvls.foldl (fun lm lv => setk lm lv.levelNum ⟨0, none, lv.difficultyVal⟩) m) i).isSome
        = true) ↔ (i ∈ lvls.map AdvLevel.levelNum ∨ (getk m i).isSome = true) by
    rw [h]
    have hbase : (getk (setk ([] : List (Int × AdvLevelStats)) 0 ⟨0, none, a.baseDifficulty⟩) i).isSome
        = true ↔ i = 0 := by
      rw [getk_setk]
      by_cases h0 : (0 : Int) = i
      · subst h0
        simp
      · have h0' : ¬ i = 0 := fun he => h0 he.symm
        simp [getk, h0, h0']
    rw [hbase]
    tauto
  intro lvls
  induction lvls with
  | nil => intro m; simp
  | cons lv tl ih =>
    intro m
    simp only [List.foldl_cons, List.map_cons, List.mem_cons]
    rw [ih, getk_setk]
    by_cases h : lv.levelNum = i
    · have h' : i = lv.levelNum := h.symm
      simp only [if_pos h, Option.isSome_some]
      tauto
    · have h2 : ¬ i = lv.levelNum := fun he => h he.symm
      simp only [if_neg h, h2, false_or]

theorem lmOf_zero (a : Adversary) (i : Int) (st : AdvLevelStats)
    (h : getk (lmOf a) i = some st) : st.plays = 0 ∧ st.lastPlayed = none := by
  unfold lmOf at h
  suffices haux : ∀ (lvls : List AdvLevel) (m : List (Int × AdvLevelStats)),
      (∀ j st0, getk m j = some st0 → st0.plays = 0 ∧ st0.lastPlayed = none) →
      ∀ j st0, getk (lvls.foldl (fun lm lv => setk lm lv.levelNum ⟨0, none, lv.difficultyVal⟩) m) j
        = some st0 → st0.plays = 0 ∧ st0.lastPlayed = none by
    refine haux a.levels _ ?_ i st h
    intro j st0 hj
    rw [getk_setk] at hj
    by_cases h0 : (0 : Int) = j
    · rw [if_pos h0] at hj
      rw [← Option.some.inj hj]
      exact ⟨rfl, rfl⟩
    · rw [if_neg h0] at hj
      simp [getk] at hj
  intro lvls
  induction lvls with
  | nil => intro m hm; exact hm
  | cons lv tl ih =>
    intro m hm
    apply ih
    intro j st0 hj
    rw [getk_setk] at hj
    by_cases hh : lv.levelNum = j
    · rw [if_pos hh] at hj
      rw [← Option.some.inj hj]
      exact ⟨rfl, rfl⟩
    · rw [if_neg hh] at hj
      exact hm j st0 hj

theorem initAdvStats_zero (advs : List Adversary) (nm : String)
    (lm : List (Int × AdvLevelStats)) (i : Int) (st : AdvLevelStats)
    (h1 : getk (initAdvStats advs) nm = some lm) (h2 : getk lm i = some st) :
    st.plays = 0 ∧ st.lastPlayed = none := by
  unfold initAdvStats at h1
  suffices haux : ∀ (l : List Adversary) (m : List (String × List (Int × AdvLevelStats))),
      (∀ nm0 lm0, getk m nm0 = some lm0 →
        ∀ j st0, getk lm0 j = some st0 → st0.plays = 0 ∧ st0.lastPlayed = none) →
      ∀ nm0 lm0, getk (l.foldl (fun m a => setk m a.name (lmOf a)) m) nm0 = some lm0 →
        ∀ j st0, getk lm0 j = some st0 → st0.plays = 0 ∧ st0.lastPlayed = none by
    refine haux advs [] ?_ nm lm h1 i st h2
    intro nm0 lm0 hg
    simp [getk] at hg
  intro l
  induction l with
  | nil => intro m hm; exact hm
  | cons a tl ih =>
    intro m hm
    apply ih
    intro nm0 lm0 hg
    rw [getk_setk] at hg
    by_cases hh : a.name = nm0
    · rw [if_pos hh] at hg
      intro j st0 hj
      exact lmOf_zero a j st0 ((Option.some.inj hg) ▸ hj)
    · rw [if_neg hh] at hg
      exact hm nm0 lm0 hg

theorem playFold_nil_stats (dv : String → Int) (d : String) :
    ∀ (l : List PlayerEntry), l.foldl (recordEntry dv d) ([] : List (String × PlayStats)) = [] := by
  intro l
  induction l with
  | nil => rfl
  | cons e tl ih =>
    have h : recordEntry dv d [] e = [] := rfl
    simp only [List.foldl_cons, h, ih]

theorem buildPlayStatsWith_nil_spirits (dv : String → Int) (ps : List String)
    (plays : List Play) : buildPlayStatsWith dv ps plays [] = [] := by
  unfold buildPlayStatsWith initStats
  simp only [List.foldl_nil]
  induction plays with
  | nil => rfl
  | cons r tl ih => simp only [List.foldl_cons, playFold_nil_stats, ih]

theorem recordAdvPlay_nil (dv : String → Int) (r : Play) : recordAdvPlay dv [] r = [] := by
  unfold recordAdvPlay
  cases hadv : r.adversary with
  | none => rfl
  | some nm => by_cases h : nm = "" <;> simp [h, getk]

theorem buildAdversaryStats_nil_advs (dv : String → Int) (plays : List Play) :
    buildAdversaryStats dv plays [] = [] := by
  unfold buildAdversaryStats initAdvStats
  simp only [List.foldl_nil]
  induction plays with
  | nil => rfl
  | cons r tl ih => simp only [List.foldl_cons, recordAdvPlay_nil, ih]

/-- C6: aggregation silently ignores unknown references: participant
entries naming an unknown spirit or an unrecognized player can be
filtered out of every record without changing buildPlayStats; a record
naming an unknown adversary can be removed without changing
buildAdversaryStats; and empty logs or catalogs yield the zero-valued
initial statistics (or the empty map) rather than an error. -/
theorem C6_unknown_ignored (dv : String → Int) (ps : List String) (plays : List Play)
    (spirits : List Spirit) (advs : List Adversary) (l₁ l₂ : List Play) (r : Play)
    (nm : String) (hadv : r.adversary = some nm) (hnm : nm ∉ advs.map Adversary.name) :
    buildPlayStatsWith dv ps plays spirits =
      buildPlayStatsWith dv ps
        (plays.map (fun q => Play.mk q.date
          (q.players.filter (fun e =>
            decide (e.spirit ∈ spirits.map Spirit.spirit) && decide (e.player ∈ ps)))
          q.adversary q.level)) spirits ∧
    buildAdversaryStats dv (l₁ ++ r :: l₂) advs = buildAdversaryStats dv (l₁ ++ l₂) advs ∧
    buildPlayStats dv [] spirits = initStats spirits [] ∧
    buildAdversaryStats dv [] advs = initAdvStats advs ∧
    buildPlayStatsWith dv ps plays [] = [] ∧
    buildAdversaryStats dv plays [] = [] ∧
    (∀ c p, cell (initStats spirits ps) c p =
      if c ∈ spirits.map Spirit.spirit ∧ p ∈ ps then some ⟨0, none⟩ else none) ∧
    (∀ nm2 lm i st, getk (initAdvStats advs) nm2 = some lm → getk lm i = some st →
      st.plays = 0 ∧ st.lastPlayed = none) := by
  refine ⟨?_, ?_, rfl, rfl, buildPlayStatsWith_nil_spirits dv ps plays,
    buildAdversaryStats_nil_advs dv plays, cell_initStats spirits ps,
    fun nm2 lm i st h1 h2 => initAdvStats_zero advs nm2 lm i st h1 h2⟩
  · rw [buildPlayStatsWith_filter dv ps plays spirits]
    congr 1
    apply List.map_congr_left
    intro q hq
    congr 1
    apply List.filter_congr
    intro e he
    rw [entryActive_initStats]
  · apply buildAdversaryStats_skip
    unfold advPlayActive
    rw [hadv]
    by_cases hns : nm = ""
    · simp [hns]
    · have hg : getk (initAdvStats advs) nm = none := by
        unfold initAdvStats
        rw [getk_initAdv_skip nm advs [] hnm]
        rfl
      simp only [if_neg hns, hg]

theorem C6_unknown_ignored_witness :
    (c6r.adversary = some "QQ" ∧ "QQ" ∉ c6advs.map Adversary.name) ∧
    (buildPlayStatsWith (fun _ => 0) c6ps c6plays c6spirits =
      buildPlayStatsWith (fun _ => 0) c6ps
        (c6plays.map (fun q => Play.mk q.date
          (q.players.filter (fun e =>
            decide (e.spirit ∈ c6spirits.map Spirit.spirit) && decide (e.player ∈ c6ps)))
          q.adversary q.level)) c6spirits ∧
    buildAdversaryStats (fun _ => 0) ([] ++ c6r :: []) c6advs =
      buildAdversaryStats (fun _ => 0) ([] ++ []) c6advs ∧
    buildPlayStats (fun _ => 0) [] c6spirits = initStats c6spirits [] ∧
    buildAdversaryStats (fun _ => 0) [] c6advs = initAdvStats c6advs ∧
    buildPlayStatsWith (fun _ => 0) c6ps c6plays [] = [] ∧
    buildAdversaryStats (fun _ => 0) c6plays [] = [] ∧
    (∀ c p, cell (initStats c6spirits c6ps) c p =
      if c ∈ c6spirits.map Spirit.spirit ∧ p ∈ c6ps then some ⟨0, none⟩ else none) ∧
    (∀ nm2 lm i st, getk (initAdvStats c6advs) nm2 = some lm → getk lm i = some st →
      st.plays = 0 ∧ st.lastPlayed = none)) :=
  ⟨⟨rfl, by decide⟩,
    C6_unknown_ignored (fun _ => 0) c6ps c6plays c6spirits c6advs [] [] c6r "QQ"
      rfl (by decide)⟩

/-- C10: a play record whose adversary is in the catalog but whose
level (defaulting to 0 when absent) is neither 0 nor one of that
adversary's declared level numbers leaves the adversary statistics
exactly unchanged (removing the record from the log gives the same
result), because the stat map of an adversary holds exactly level 0
plus its declared levels. -/
theorem C10_unknown_level (dv : String → Int) (advs : List Adversary) (a : Adversary)
    (l₁ l₂ : List Play) (r : Play)
    (hnd : (advs.map Adversary.name).Nodup) (ha : a ∈ advs)
    (hadv : r.adversary = some a.name)
    (hlvl : ¬(r.level.getD 0 = 0 ∨ r.level.getD 0 ∈ a.levels.map AdvLevel.levelNum)) :
    buildAdversaryStats dv (l₁ ++ r :: l₂) advs = buildAdversaryStats dv (l₁ ++ l₂) advs ∧
    (∀ i : Int, (getk ((getk (initAdvStats advs) a.name).getD []) i).isSome = true ↔
      (i = 0 ∨ i ∈ a.levels.map AdvLevel.levelNum)) := by
  have hlm := getk_initAdvStats_mem advs hnd a ha
  constructor
  · apply buildAdversaryStats_skip
    unfold advPlayActive
    rw [hadv]
    by_cases hnm : a.name = ""
    · simp [hnm]
    · simp only [if_neg hnm, hlm]
      cases hb : (getk (lmOf a) (r.level.getD 0)).isSome
      · rfl
      · exact absurd ((getk_lmOf_isSome a (r.level.getD 0)).mp hb) hlvl
  · intro i
    rw [hlm, Option.getD_some]
    exact getk_lmOf_isSome a i

theorem C10_unknown_level_witness :
    ((c10advs.map Adversary.name).Nodup ∧
      (⟨"BP", 1, "esc", "url", [⟨1, 3, "fear", "fx"⟩]⟩ : Adversary) ∈ c10advs ∧
      c10r.adversary = some (Adversary.name ⟨"BP", 1, "esc", "url", [⟨1, 3, "fear", "fx"⟩]⟩) ∧
      ¬(c10r.level.getD 0 = 0 ∨ c10r.level.getD 0 ∈
        (Adversary.levels ⟨"BP", 1, "esc", "url", [⟨1, 3, "fear", "fx"⟩]⟩).map AdvLevel.levelNum)) ∧
    (buildAdversaryStats (fun _ => 0) ([] ++ c10r :: []) c10advs =
      buildAdversaryStats (fun _ => 0) ([] ++ []) c10advs ∧
    (∀ i : Int, (getk ((getk (initAdvStats c10advs)
        (Adversary.name ⟨"BP", 1, "esc", "url", [⟨1, 3, "fear", "fx"⟩]⟩)).getD []) i).isSome = true ↔
      (i = 0 ∨ i ∈ (Adversary.levels ⟨"BP", 1, "esc", "url", [⟨1, 3, "fear", "fx"⟩]⟩).map
        AdvLevel.levelNum))) :=
  ⟨⟨by decide, by decide, by decide, by decide⟩,
    C10_unknown_level (fun _ => 0) c10advs ⟨"BP", 1, "esc", "url", [⟨1, 3, "fear", "fx"⟩]⟩
      [] [] c10r (by decide) (by decide) (by decide) (by decide)⟩

theorem advScanStep_fold (dv : String → Int) (lm : List (Int × AdvLevelStats)) :
    ∀ (l : List Int) (acc : Int × Option String),
    l.foldl (advScanStep dv lm) acc =
      ((l.filter (levelPlayed lm)).foldl max acc.1,
       foldDates dv (l.filterMap (advDateAt lm)) acc.2) := by
  intro l
  induction l with
  | nil => intro acc; rfl
  | cons i tl ih =>
    intro acc
    simp only [List.foldl_cons, List.filter_cons, List.filterMap_cons]
    rw [ih]
    cases hg : getk lm i with
    | none =>
      have h1 : advScanStep dv lm acc i = acc := by simp [advScanStep, hg]
      have h2 : levelPlayed lm i = false := by simp [levelPlayed, hg]
      have h3 : advDateAt lm i = none := by simp [advDateAt, hg]
      rw [h1, h2, h3]
      simp
    | some st =>
      by_cases hp : 0 < st.plays
      · cases hlp : st.lastPlayed with
        | none =>
          have h1 : advScanStep dv lm acc i = (max acc.1 i, acc.2) := by
            simp [advScanStep, hg, hp, hlp]
          have h2 : levelPlayed lm i = true := by simp [levelPlayed, hg, hp]
          have h3 : advDateAt lm i = none := by simp [advDateAt, hg, hp, hlp]
          rw [h1, h2, h3]
          simp
        | some t =>
          by_cases ht : t = ""
          · have h1 : advScanStep dv lm acc i = (max acc.1 i, acc.2) := by
              simp [advScanStep, hg, hp, hlp, ht]
            have h2 : levelPlayed lm i = true := by simp [levelPlayed, hg, hp]
            have h3 : advDateAt lm i = none := by simp [advDateAt, hg, hp, hlp, ht]
            rw [h1, h2, h3]
            simp
          · have h1 : advScanStep dv lm acc i = (max acc.1 i, some (updLast dv t acc.2)) := by
              simp [advScanStep, hg, hp, hlp, ht]
            have h2 : levelPlayed lm i = true := by simp [levelPlayed, hg, hp]
            have h3 : advDateAt lm i = some t := by simp [advDateAt, hg, hp, hlp, ht]
            rw [h1, h2, h3]
            simp [foldDates]
      · have h1 : advScanStep dv lm acc i = acc := by simp [advScanStep, hg, hp]
        have h2 : levelPlayed lm i = false := by simp [levelPlayed, hg, hp]
        have h3 : advDateAt lm i = none := by simp [advDateAt, hg, hp]
        rw [h1, h2, h3]
        simp

theorem advScan_eq (dv : String → Int) (lm : List (Int × AdvLevelStats)) :
    advScan dv lm = (highestPlayed lm, foldDates dv (advPlayedDates lm) none) := by
  unfold advScan highestPlayed playedLevels advPlayedDates
  rw [advScanStep_fold]

theorem foldl_max_spec (l : List Int) : ∀ (a : Int),
    a ≤ l.foldl max a ∧ (∀ i ∈ l, i ≤ l.foldl max a) ∧
    (l.foldl max a = a ∨ l.foldl max a ∈ l) := by
  induction l with
  | nil => intro a; exact ⟨le_refl _, by simp, Or.inl rfl⟩
  | cons x tl ih =>
    intro a
    simp only [List.foldl_cons]
    obtain ⟨h1, h2, h3⟩ := ih (max a x)
    refine ⟨le_trans (le_max_left a x) h1, ?_, ?_⟩
    · intro i hi
      rcases List.mem_cons.mp hi with he | hm
      · rw [he]
        exact le_trans (le_max_right a x) h1
      · exact h2 i hm
    · rcases h3 with he | hm
      · rcases max_cases a x with ⟨hc, _⟩ | ⟨hc, _⟩
        · exact Or.inl (he.trans hc)
        · refine Or.inr ?_
          rw [he, hc]
          exact List.mem_cons_self x tl
      · exact Or.inr (List.mem_cons_of_mem x hm)

theorem playedLevels_mem_range (lm : List (Int × AdvLevelStats)) (i : Int)
    (h : i ∈ playedLevels lm) : 0 ≤ i ∧ i ≤ 6 := by
  unfold playedLevels at h
  rw [List.mem_filter] at h
  obtain ⟨hm, _⟩ := h
  simp only [levelRange, List.mem_cons, List.not_mem_nil, or_false] at hm
  rcases hm with h | h | h | h | h | h | h <;> omega

theorem advPlayedDates_ne (lm : List (Int × AdvLevelStats)) (t : String)
    (h : t ∈ advPlayedDates lm) : t ≠ "" := by
  unfold advPlayedDates at h
  rw [List.mem_filterMap] at h
  obtain ⟨i, _, hi⟩ := h
  revert hi
  unfold advDateAt
  cases getk lm i with
  | none => intro hi; simp at hi
  | some st =>
    by_cases hp : 0 < st.plays
    · simp only [if_pos hp]
      cases st.lastPlayed with
      | none => intro hi; simp at hi
      | some u =>
        by_cases hu : u = ""
        · simp only [if_pos hu]
          intro hi
          simp at hi
        · simp only [if_neg hu]
          intro hi
          rw [← Option.some.inj hi]
          exact hu
    · simp only [if_neg hp]
      intro hi
      simp at hi

theorem insertC_pairwise {α : Type} (le : α → α → Bool)
    (htrans : ∀ a b c, le a b = true → le b c = true → le a c = true)
    (htot : ∀ a b, le a b = true ∨ le b a = true)
    (x : α) : ∀ (l : List α), l.Pairwise (fun a b => le a b = true) →
    (insertC le x l).Pairwise (fun a b => le a b = true) := by
  intro l
  induction l with
  | nil => intro _; simp [insertC]
  | cons y ys ih =>
    intro hl
    rcases List.pairwise_cons.mp hl with ⟨hy, hys⟩
    simp only [insertC]
    cases hp : le y x
    · simp only [Bool.false_eq_true, if_false]
      have hxy : le x y = true := by
        rcases htot x y with h | h
        · exact h
        · rw [h] at hp
          cases hp
      refine List.Pairwise.cons ?_ hl
      intro b hb
      rcases List.mem_cons.mp hb with he | hm
      · exact he ▸ hxy
      · exact htrans x y b hxy (hy b hm)
    · simp only [if_true]
      refine List.Pairwise.cons ?_ (ih hys)
      intro b hb
      rcases List.mem_cons.mp ((insertC_perm le x ys).mem_iff.mp hb) with he | hm
      · exact he ▸ hp
      · exact hy b hm

theorem sortC_pairwise {α : Type} (le : α → α → Bool)
    (htrans : ∀ a b c, le a b = true → le b c = true → le a c = true)
    (htot : ∀ a b, le a b = true ∨ le b a = true) (l : List α) :
    (sortC le l).Pairwise (fun a b => le a b = true) := by
  suffices h : ∀ (l acc : List α), acc.Pairwise (fun a b => le a b = true) →
      (l.foldl (fun a x => insertC le x a) acc).Pairwise (fun a b => le a b = true) from
    h l [] (List.Pairwise.nil)
  intro l
  induction l with
  | nil => intro acc h; exact h
  | cons x tl ih =>
    intro acc h
    simp only [List.foldl_cons]
    exact ih _ (insertC_pairwise le htrans htot x acc h)

theorem insertC_filter_split {α : Type} (le : α → α → Bool) (p : α → Bool)
    (hpp : ∀ a b, p a = true → p b = true → le a b = true)
    (hnp : ∀ a b, p a = false → p b = true → le a b = false)
    (x : α) : ∀ (l : List α), l.Pairwise (fun a b => le a b = true) →
    (insertC le x l).filter p = l.filter p ++ (if p x then [x] else []) := by
  intro l
  induction l with
  | nil =>
    intro _
    simp [insertC, List.filter_cons]
  | cons y ys ih =>
    intro hl
    rcases List.pairwise_cons.mp hl with ⟨hy, hys⟩
    simp only [insertC]
    cases hle : le y x
    · simp only [Bool.false_eq_true, if_false, List.filter_cons]
      cases hpx : p x
      · simp
      · have hpy : p y = false := by
          cases hpy : p y
          · rfl
          · have := hpp y x hpy hpx
            rw [hle] at this
            cases this
        have hzs : ys.filter p = [] := by
          apply List.filter_eq_nil_iff.mpr
          intro z hz
          cases hpz : p z
          · simp
          · have h1 := hnp y z hpy hpz
            have h2 := hy z hz
            rw [h1] at h2
            cases h2
        simp [hpx, hpy, hzs]
    · simp only [if_true, List.filter_cons]
      rw [ih hys]
      cases hpy : p y <;> simp [hpy]

theorem sortC_filter_stable {α : Type} (le : α → α → Bool) (p : α → Bool)
    (htrans : ∀ a b c, le a b = true → le b c = true → le a c = true)
    (htot : ∀ a b, le a b = true ∨ le b a = true)
    (hpp : ∀ a b, p a = true → p b = true → le a b = true)
    (hnp : ∀ a b, p a = false → p b = true → le a b = false)
    (l : List α) : (sortC le l).filter p = l.filter p := by
  suffices h : ∀ (l acc : List α), acc.Pairwise (fun a b => le a b = true) →
      (l.foldl (fun a x => insertC le x a) acc).filter p = acc.filter p ++ l.filter p by
    have h2 := h l [] List.Pairwise.nil
    simpa [sortC] using h2
  intro l
  induction l with
  | nil => intro acc _; simp
  | cons x tl ih =>
    intro acc hacc
    simp only [List.foldl_cons, List.filter_cons]
    rw [ih _ (insertC_pairwise le htrans htot x acc hacc),
      insertC_filter_split le p hpp hnp x acc hacc]
    cases hpx : p x <;> simp [List.append_assoc]

theorem advLe_trans (dv : String → Int) : ∀ a b c : AdvRec,
    advLe dv a b = true → advLe dv b c = true → advLe dv a c = true := by
  intro a b c h1 h2
  unfold advLe advCmp at h1 h2 ⊢
  cases ha : a.lastPlayed with
  | none => cases hc : c.lastPlayed <;> simp
  | some x =>
    cases hb : b.lastPlayed with
    | none =>
      rw [ha, hb] at h1
      simp at h1
    | some y =>
      cases hc : c.lastPlayed with
      | none =>
        rw [hb, hc] at h2
        simp at h2
      | some z =>
        rw [ha, hb] at h1
        rw [hb, hc] at h2
        simp at h1 h2 ⊢
        omega

theorem advLe_total (dv : String → Int) : ∀ a b : AdvRec,
    advLe dv a b = true ∨ advLe dv b a = true := by
  intro a b
  unfold advLe advCmp
  cases ha : a.lastPlayed <;> cases hb : b.lastPlayed <;> simp <;> omega

theorem advRecFor_fields (dv : String → Int) (fmtTs : Int → String)
    (stats : List (String × List (Int × AdvLevelStats))) (a : Adversary)
    (lm : List (Int × AdvLevelStats)) (hlm : getk stats a.name = some lm) :
    (advRecFor dv fmtTs stats a).lastPlayed = foldDates dv (advPlayedDates lm) none ∧
    (advRecFor dv fmtTs stats a).level = min (highestPlayed lm + 1) 6 ∧
    (advRecFor dv fmtTs stats a).difficultyVal =
      (if min (highestPlayed lm + 1) 6 = 0 then a.baseDifficulty
       else
         match a.levels.find? (fun lv => lv.levelNum == min (highestPlayed lm + 1) 6) with
         | some lv => lv.difficultyVal
         | none => a.baseDifficulty) := by
  unfold advRecFor
  rw [hlm]
  simp only [Option.getD_some, advScan_eq]
  exact ⟨trivial, trivial, trivial⟩

/-- C3: the recommended next level for an adversary is
min(highestPlayed + 1, 6), where highestPlayed is the largest level in
0..6 present in the stat map with at least one play (the fold result
bounds and contains the played levels) and is -1 when no level is
played (yielding level 0); the difficulty is the base difficulty at
level 0 and otherwise the declared difficulty of the matching level
entry, falling back to the base difficulty. -/
theorem C3_adv_next_level (dv : String → Int) (fmtTs : Int → String) (plays : List Play)
    (advs : List Adversary) (a : Adversary) (lm : List (Int × AdvLevelStats))
    (hlm : getk (buildAdversaryStats dv plays advs) a.name = some lm) :
    (advRecFor dv fmtTs (buildAdversaryStats dv plays advs) a).level =
      min (highestPlayed lm + 1) 6 ∧
    (∀ i ∈ playedLevels lm, i ≤ highestPlayed lm) ∧
    (playedLevels lm ≠ [] → highestPlayed lm ∈ playedLevels lm) ∧
    (playedLevels lm = [] → highestPlayed lm = -1 ∧
      (advRecFor dv fmtTs (buildAdversaryStats dv plays advs) a).level = 0) ∧
    (advRecFor dv fmtTs (buildAdversaryStats dv plays advs) a).difficultyVal =
      (if (advRecFor dv fmtTs (buildAdversaryStats dv plays advs) a).level = 0
        then a.baseDifficulty
        else
          match a.levels.find? (fun lv =>
              lv.levelNum == (advRecFor dv fmtTs (buildAdversaryStats dv plays advs) a).level) with
          | some lv => lv.difficultyVal
          | none => a.baseDifficulty) := by
  obtain ⟨hlast, hlevel, hdiff⟩ := advRecFor_fields dv fmtTs _ a lm hlm
  refine ⟨hlevel, ?_, ?_, ?_, ?_⟩
  · intro i hi
    exact (foldl_max_spec (playedLevels lm) (-1)).2.1 i hi
  · intro hne
    rcases (foldl_max_spec (playedLevels lm) (-1)).2.2 with he | hm
    · exfalso
      cases hl : playedLevels lm with
      | nil => exact hne hl
      | cons j js =>
        have hj := (foldl_max_spec (playedLevels lm) (-1)).2.1 j
          (by rw [hl]; exact List.mem_cons_self _ _)
        have hb := playedLevels_mem_range lm j (by rw [hl]; exact List.mem_cons_self _ _)
        have he2 : (playedLevels lm).foldl max (-1) = -1 := he
        rw [he2] at hj
        omega
    · exact hm
  · intro hnil
    have h0 : highestPlayed lm = -1 := by
      unfold highestPlayed
      rw [hnil]
      rfl
    refine ⟨h0, ?_⟩
    rw [hlevel, h0]
    decide
  · rw [hdiff, hlevel]

/-- C4: in the adversary recommendation list, never-played adversaries
all precede played ones, the never-played keep their relative catalog
order, played adversaries are in nondecreasing order of their
most-recent-played timestamp, and the lastPlayed field of each row is
the maximal truthy date over that adversary's played levels. -/
theorem C4_adv_list_order (dv : String → Int) (fmtTs : Int → String) (plays : List Play)
    (advs : List Adversary) :
    (getAdversaryRecommendation dv fmtTs plays advs).Pairwise
      (fun x y => y.lastPlayed = none → x.lastPlayed = none) ∧
    (getAdversaryRecommendation dv fmtTs plays advs).filter (fun x => x.lastPlayed.isNone) =
      (advs.map (advRecFor dv fmtTs (buildAdversaryStats dv plays advs))).filter
        (fun x => x.lastPlayed.isNone) ∧
    (getAdversaryRecommendation dv fmtTs plays advs).Pairwise
      (fun x y => ∀ s t, x.lastPlayed = some s → y.lastPlayed = some t → dv s ≤ dv t) ∧
    (∀ a lm, getk (buildAdversaryStats dv plays advs) a.name = some lm →
      (((advRecFor dv fmtTs (buildAdversaryStats dv plays advs) a).lastPlayed = none ↔
        advPlayedDates lm = []) ∧
       (∀ s, (advRecFor dv fmtTs (buildAdversaryStats dv plays advs) a).lastPlayed = some s →
         s ∈ advPlayedDates lm ∧ ∀ t ∈ advPlayedDates lm, dv t ≤ dv s))) := by
  have hsorted := sortC_pairwise (advLe dv) (advLe_trans dv) (advLe_total dv)
    (advs.map (advRecFor dv fmtTs (buildAdversaryStats dv plays advs)))
  unfold getAdversaryRecommendation
  refine ⟨?_, ?_, ?_, ?_⟩
  · refine List.Pairwise.imp ?_ hsorted
    intro a b hab hbn
    unfold advLe advCmp at hab
    rw [hbn] at hab
    cases han : a.lastPlayed with
    | none => rfl
    | some x =>
      rw [han] at hab
      simp at hab
  · apply sortC_filter_stable (advLe dv) _ (advLe_trans dv) (advLe_total dv)
    · intro a b ha hb
      rw [Option.isNone_iff_eq_none] at ha hb
      unfold advLe advCmp
      rw [ha, hb]
      simp
    · intro a b ha hb
      rw [Option.isNone_iff_eq_none] at hb
      unfold advLe advCmp
      rw [hb]
      cases han : a.lastPlayed with
      | none =>
        rw [han] at ha
        simp at ha
      | some x => simp
  · refine List.Pairwise.imp ?_ hsorted
    intro a b hab s t hs ht
    unfold advLe advCmp at hab
    rw [hs, ht] at hab
    simp at hab
    omega
  · intro a lm hlm
    obtain ⟨hlast, _, _⟩ := advRecFor_fields dv fmtTs _ a lm hlm
    rw [hlast]
    constructor
    · rw [foldDates_none_iff]
    · intro s hs
      by_cases hnil : advPlayedDates lm = []
      · rw [hnil] at hs
        simp [foldDates] at hs
      · obtain ⟨b, hbf, hbm, hbd⟩ :=
          foldDates_max dv _ hnil (fun t ht => advPlayedDates_ne lm t ht)
        rw [hbf] at hs
        have hbs : b = s := Option.some.inj hs
        rw [← hbs]
        exact ⟨hbm, hbd⟩

theorem C3_adv_next_level_witness :
    (getk (buildAdversaryStats c3dv c3plays c3advs) c3a.name = some c3lm) ∧
    ((advRecFor c3dv (fun _ => "D") (buildAdversaryStats c3dv c3plays c3advs) c3a).level =
      min (highestPlayed c3lm + 1) 6 ∧
    (∀ i ∈ playedLevels c3lm, i ≤ highestPlayed c3lm) ∧
    (playedLevels c3lm ≠ [] → highestPlayed c3lm ∈ playedLevels c3lm) ∧
    (playedLevels c3lm = [] → highestPlayed c3lm = -1 ∧
      (advRecFor c3dv (fun _ => "D") (buildAdversaryStats c3dv c3plays c3advs) c3a).level = 0) ∧
    (advRecFor c3dv (fun _ => "D") (buildAdversaryStats c3dv c3plays c3advs) c3a).difficultyVal =
      (if (advRecFor c3dv (fun _ => "D") (buildAdversaryStats c3dv c3plays c3advs) c3a).level = 0
        then c3a.baseDifficulty
        else
          match c3a.levels.find? (fun lv =>
              lv.levelNum ==
                (advRecFor c3dv (fun _ => "D")
                  (buildAdversaryStats c3dv c3plays c3advs) c3a).level) with
          | some lv => lv.difficultyVal
          | none => c3a.baseDifficulty)) :=
  ⟨by decide,
    C3_adv_next_level c3dv (fun _ => "D") c3plays c3advs c3a c3lm (by decide)⟩

theorem C4_adv_list_order_witness :
    (getAdversaryRecommendation c4dv (fun _ => "D") c4plays c4advs).Pairwise
      (fun x y => y.lastPlayed = none → x.lastPlayed = none) ∧
    (getAdversaryRecommendation c4dv (fun _ => "D") c4plays c4advs).filter
        (fun x => x.lastPlayed.isNone) =
      (c4advs.map (advRecFor c4dv (fun _ => "D")
        (buildAdversaryStats c4dv c4plays c4advs))).filter (fun x => x.lastPlayed.isNone) ∧
    (getAdversaryRecommendation c4dv (fun _ => "D") c4plays c4advs).Pairwise
      (fun x y => ∀ s t, x.lastPlayed = some s → y.lastPlayed = some t → c4dv s ≤ c4dv t) ∧
    (∀ a lm, getk (buildAdversaryStats c4dv c4plays c4advs) a.name = some lm →
      (((advRecFor c4dv (fun _ => "D")
          (buildAdversaryStats c4dv c4plays c4advs) a).lastPlayed = none ↔
        advPlayedDates lm = []) ∧
       (∀ s, (advRecFor c4dv (fun _ => "D")
            (buildAdversaryStats c4dv c4plays c4advs) a).lastPlayed = some s →
         s ∈ advPlayedDates lm ∧ ∀ t ∈ advPlayedDates lm, c4dv t ≤ c4dv s))) :=
  C4_adv_list_order c4dv (fun _ => "D") c4plays c4advs

theorem foldl_add_eq_sum {α : Type} (f : α → Nat) : ∀ (l : List α) (a : Nat),
    l.foldl (fun t x => t + f x) a = a + (l.map f).sum := by
  intro l
  induction l with
  | nil => intro a; simp
  | cons x tl ih =>
    intro a
    simp only [List.foldl_cons, List.map_cons, List.sum_cons, ih]
    omega

theorem foldl_maxf_spec {α : Type} (f : α → Nat) : ∀ (l : List α) (a : Nat),
    a ≤ l.foldl (fun m row => max m (f row)) a ∧
    ∀ x ∈ l, f x ≤ l.foldl (fun m row => max m (f row)) a := by
  intro l
  induction l with
  | nil => intro a; exact ⟨le_refl _, by simp⟩
  | cons x tl ih =>
    intro a
    simp only [List.foldl_cons]
    obtain ⟨h1, h2⟩ := ih (max a (f x))
    refine ⟨le_trans (le_max_left _ _) h1, ?_⟩
    intro y hy
    rcases List.mem_cons.mp hy with he | hm
    · rw [he]
      exact le_trans (le_max_right a (f x)) h1
    · exact h2 y hm

theorem summary_fold_spec {α : Type} (f : α → Nat) (g : α → String) :
    ∀ (l : List α) (acc : String × Nat),
    (l.foldl (fun most row => if most.2 < f row then (g row, f row) else most) acc).2 =
      l.foldl (fun m row => max m (f row)) acc.2 ∧
    (l.foldl (fun m row => max m (f row)) acc.2 = acc.2 →
      l.foldl (fun most row => if most.2 < f row then (g row, f row) else most) acc = acc) ∧
    (acc.2 < l.foldl (fun m row => max m (f row)) acc.2 →
      ∃ row, l.find? (fun row =>
          f row == l.foldl (fun m r => max m (f r)) acc.2) = some row ∧
        l.foldl (fun most row => if most.2 < f row then (g row, f row) else most) acc =
          (g row, f row)) := by
  intro l
  induction l with
  | nil =>
    intro acc
    exact ⟨rfl, fun _ => rfl, fun h => absurd h (lt_irrefl _)⟩
  | cons row tl ih =>
    intro acc
    simp only [List.foldl_cons]
    by_cases himp : acc.2 < f row
    · have hstep : (if acc.2 < f row then (g row, f row) else acc) = (g row, f row) :=
        if_pos himp
      have hmax : max acc.2 (f row) = f row := max_eq_right (le_of_lt himp)
      rw [hstep, hmax]
      obtain ⟨ih1, ih2, ih3⟩ := ih (g row, f row)
      refine ⟨ih1, ?_, ?_⟩
      · intro h
        exfalso
        have hge := (foldl_maxf_spec f tl (f row)).1
        omega
      · intro h
        by_cases heq : tl.foldl (fun m r => max m (f r)) (f row) = f row
        · have hres := ih2 heq
          refine ⟨row, ?_, hres⟩
          have hpred : (f row == tl.foldl (fun m r => max m (f r)) (f row)) = true := by
            rw [heq]
            simp
          exact List.find?_cons_of_pos _ hpred
        · have hge := (foldl_maxf_spec f tl (f row)).1
          have hgt : f row < tl.foldl (fun m r => max m (f r)) (f row) :=
            lt_of_le_of_ne hge (fun he => heq he.symm)
          obtain ⟨row1, hf, hr⟩ := ih3 hgt
          refine ⟨row1, ?_, hr⟩
          have hpred : (f row == tl.foldl (fun m r => max m (f r)) (f row)) = false := by
            simp
            omega
          exact (List.find?_cons_of_neg _ (by rw [hpred]; simp)).trans hf
    · have hstep : (if acc.2 < f row then (g row, f row) else acc) = acc := if_neg himp
      have hmax : max acc.2 (f row) = acc.2 := max_eq_left (not_lt.mp himp)
      rw [hstep, hmax]
      obtain ⟨ih1, ih2, ih3⟩ := ih acc
      refine ⟨ih1, ih2, ?_⟩
      intro h
      obtain ⟨row1, hf, hr⟩ := ih3 h
      refine ⟨row1, ?_, hr⟩
      have hpred : (f row == tl.foldl (fun m r => max m (f r)) acc.2) = false := by
        simp
        omega
      exact (List.find?_cons_of_neg _ (by rw [hpred]; simp)).trans hf

/-- C7: the summary total of a participant is the sum of their play
counts over all rows; the favorite is the first row attaining the
maximal play count, displayed only when that maximum is positive and
hidden when every count is zero. -/
theorem C7_summary (stats : List (String × PlayStats)) (p : String) :
    summaryTotal stats p = ((stats.map Prod.snd).map (fun row => playsOfRow row p)).sum ∧
    (∀ row ∈ stats.map Prod.snd, playsOfRow row p ≤
      (stats.map Prod.snd).foldl (fun m row => max m (playsOfRow row p)) 0) ∧
    ((stats.map Prod.snd).foldl (fun m row => max m (playsOfRow row p)) 0 = 0 →
      displayFavorite stats p = none) ∧
    (0 < (stats.map Prod.snd).foldl (fun m row => max m (playsOfRow row p)) 0 →
      ∃ row, (stats.map Prod.snd).find? (fun row => playsOfRow row p ==
          (stats.map Prod.snd).foldl (fun m r => max m (playsOfRow r p)) 0) = some row ∧
        displayFavorite stats p =
          some (row.spirit.spirit,
            (stats.map Prod.snd).foldl (fun m r => max m (playsOfRow r p)) 0)) := by
  obtain ⟨h1, h2, h3⟩ := summary_fold_spec (fun row => playsOfRow row p)
    (fun row => row.spirit.spirit) (stats.map Prod.snd) ("", 0)
  have hfav : summaryFav stats p = (stats.map Prod.snd).foldl
      (fun most row => if most.2 < playsOfRow row p then (row.spirit.spirit, playsOfRow row p)
        else most) ("", 0) := rfl
  refine ⟨?_, (foldl_maxf_spec _ _ _).2, ?_, ?_⟩
  · unfold summaryTotal
    rw [foldl_add_eq_sum]
    simp
  · intro h
    have hres := h2 h
    unfold displayFavorite
    rw [hfav, hres]
    simp
  · intro h
    obtain ⟨row, hf, hr⟩ := h3 h
    have hfr : playsOfRow row p =
        (stats.map Prod.snd).foldl (fun m r => max m (playsOfRow r p)) 0 := by
      have := List.find?_some hf
      simpa using this
    refine ⟨row, hf, ?_⟩
    unfold displayFavorite
    rw [hfav, hr]
    simp only [hfr]
    rw [if_pos (by omega)]

theorem C7_summary_witness :
    summaryTotal c7stats "A" =
      ((c7stats.map Prod.snd).map (fun row => playsOfRow row "A")).sum ∧
    (∀ row ∈ c7stats.map Prod.snd, playsOfRow row "A" ≤
      (c7stats.map Prod.snd).foldl (fun m row => max m (playsOfRow row "A")) 0) ∧
    ((c7stats.map Prod.snd).foldl (fun m row => max m (playsOfRow row "A")) 0 = 0 →
      displayFavorite c7stats "A" = none) ∧
    (0 < (c7stats.map Prod.snd).foldl (fun m row => max m (playsOfRow row "A")) 0 →
      ∃ row, (c7stats.map Prod.snd).find? (fun row => playsOfRow row "A" ==
          (c7stats.map Prod.snd).foldl (fun m r => max m (playsOfRow r "A")) 0) = some row ∧
        displayFavorite c7stats "A" =
          some (row.spirit.spirit,
            (c7stats.map Prod.snd).foldl (fun m r => max m (playsOfRow r "A")) 0)) :=
  C7_summary c7stats "A"

theorem cmpRow_n (key : String) (v : PlayStats → Nat)
    (hv : ∀ row, sortValueOf key row = SortVal.n (v row)) (a b : PlayStats) :
    (rowLe key true a b = true ↔ v a ≤ v b) ∧
    (rowLe key false a b = true ↔ v b ≤ v a) := by
  unfold rowLe cmpRow
  rw [hv a, hv b]
  constructor
  · by_cases h1 : v a < v b <;> by_cases h2 : v b < v a <;>
      simp [ltVal, h1, h2] <;> omega
  · by_cases h1 : v a < v b <;> by_cases h2 : v b < v a <;>
      simp [ltVal, h1, h2] <;> omega

theorem sortC_pairwise_n (key : String) (v : PlayStats → Nat)
    (hv : ∀ row, sortValueOf key row = SortVal.n (v row)) (l : List PlayStats) :
    (sortC (rowLe key true) l).Pairwise (fun a b => v a ≤ v b) ∧
    (sortC (rowLe key false) l).Pairwise (fun a b => v b ≤ v a) := by
  constructor
  · refine List.Pairwise.imp ?_ (sortC_pairwise (rowLe key true) ?_ ?_ l)
    · intro a b hab
      exact (cmpRow_n key v hv a b).1.mp hab
    · intro a b c h1 h2
      exact (cmpRow_n key v hv a c).1.mpr
        (le_trans ((cmpRow_n key v hv a b).1.mp h1) ((cmpRow_n key v hv b c).1.mp h2))
    · intro a b
      rcases Nat.le_total (v a) (v b) with h | h
      · exact Or.inl ((cmpRow_n key v hv a b).1.mpr h)
      · exact Or.inr ((cmpRow_n key v hv b a).1.mpr h)
  · refine List.Pairwise.imp ?_ (sortC_pairwise (rowLe key false) ?_ ?_ l)
    · intro a b hab
      exact (cmpRow_n key v hv a b).2.mp hab
    · intro a b c h1 h2
      exact (cmpRow_n key v hv a c).2.mpr
        (le_trans ((cmpRow_n key v hv b c).2.mp h2) ((cmpRow_n key v hv a b).2.mp h1))
    · intro a b
      rcases Nat.le_total (v a) (v b) with h | h
      · exact Or.inr ((cmpRow_n key v hv b a).2.mpr h)
      · exact Or.inl ((cmpRow_n key v hv a b).2.mpr h)

theorem ltVal_empty_s (t : String) (ht : t ≠ "") :
    ltVal (SortVal.s "") (SortVal.s t) = true := by
  cases t with
  | mk l =>
    cases l with
    | nil => exact absurd rfl ht
    | cons c cs => rfl

/-- C8: the composite sort projection defaults a missing play count to
0 and a missing or absent last-played date to the empty string, which
sorts before every nonempty date string; sorting by a participant play
count ascending yields nondecreasing counts, descending nonincreasing;
and toggling the same key twice from ascending restores ascending. -/
theorem C8_sort_projection (stats : List (String × PlayStats)) (p : String)
    (hp : p = "A" ∨ p = "E") :
    (∀ row, getk row.playerStats p = none →
      sortValueOf ("player-" ++ p ++ "-plays") row = SortVal.n 0 ∧
      sortValueOf ("player-" ++ p ++ "-lastPlayed") row = SortVal.s "") ∧
    (∀ row st, getk row.playerStats p = some st → st.lastPlayed = none →
      sortValueOf ("player-" ++ p ++ "-lastPlayed") row = SortVal.s "") ∧
    (∀ row, sortValueOf ("player-" ++ p ++ "-plays") row = SortVal.n (playsOfRow row p)) ∧
    (∀ t : String, t ≠ "" → ltVal (SortVal.s "") (SortVal.s t) = true) ∧
    (sortedPlayStats (some ("player-" ++ p ++ "-plays", true)) stats).Pairwise
      (fun a b => playsOfRow a p ≤ playsOfRow b p) ∧
    (sortedPlayStats (some ("player-" ++ p ++ "-plays", false)) stats).Pairwise
      (fun a b => playsOfRow b p ≤ playsOfRow a p) ∧
    handleSort (handleSort (some ("player-" ++ p ++ "-plays", true))
        ("player-" ++ p ++ "-plays")) ("player-" ++ p ++ "-plays") =
      some ("player-" ++ p ++ "-plays", true) := by
  have hmain : ∀ q : String,
      (∀ row, sortValueOf ("player-" ++ q ++ "-plays") row = SortVal.n (playsOfRow row q)) →
      (∀ row, sortValueOf ("player-" ++ q ++ "-lastPlayed") row =
        SortVal.s (match getk row.playerStats q with
          | some st => st.lastPlayed.getD ""
          | none => "")) →
      (∀ row, getk row.playerStats q = none →
        sortValueOf ("player-" ++ q ++ "-plays") row = SortVal.n 0 ∧
        sortValueOf ("player-" ++ q ++ "-lastPlayed") row = SortVal.s "") ∧
      (∀ row st, getk row.playerStats q = some st → st.lastPlayed = none →
        sortValueOf ("player-" ++ q ++ "-lastPlayed") row = SortVal.s "") ∧
      (∀ row, sortValueOf ("player-" ++ q ++ "-plays") row = SortVal.n (playsOfRow row q)) ∧
      (∀ t : String, t ≠ "" → ltVal (SortVal.s "") (SortVal.s t) = true) ∧
      (sortedPlayStats (some ("player-" ++ q ++ "-plays", true)) stats).Pairwise
        (fun a b => playsOfRow a q ≤ playsOfRow b q) ∧
      (sortedPlayStats (some ("player-" ++ q ++ "-plays", false)) stats).Pairwise
        (fun a b => playsOfRow b q ≤ playsOfRow a q) ∧
      handleSort (handleSort (some ("player-" ++ q ++ "-plays", true))
          ("player-" ++ q ++ "-plays")) ("player-" ++ q ++ "-plays") =
        some ("player-" ++ q ++ "-plays", true) := by
    intro q hvp hvd
    refine ⟨?_, ?_, hvp, ltVal_empty_s, ?_, ?_, ?_⟩
    · intro row hg
      constructor
      · rw [hvp row]
        unfold playsOfRow
        rw [hg]
      · rw [hvd row, hg]
    · intro row st hg hn
      rw [hvd row, hg]
      simp [hn]
    · exact (sortC_pairwise_n _ _ hvp (stats.map Prod.snd)).1
    · exact (sortC_pairwise_n _ _ hvp (stats.map Prod.snd)).2
    · simp [handleSort]
  rcases hp with hq | hq
  · subst hq
    exact hmain "A" (fun row => rfl) (fun row => rfl)
  · subst hq
    exact hmain "E" (fun row => rfl) (fun row => rfl)

theorem C8_sort_projection_witness :
    ("A" = "A" ∨ "A" = "E") ∧
    ((∀ row, getk row.playerStats "A" = none →
      sortValueOf ("player-" ++ "A" ++ "-plays") row = SortVal.n 0 ∧
      sortValueOf ("player-" ++ "A" ++ "-lastPlayed") row = SortVal.s "") ∧
    (∀ row st, getk row.playerStats "A" = some st → st.lastPlayed = none →
      sortValueOf ("player-" ++ "A" ++ "-lastPlayed") row = SortVal.s "") ∧
    (∀ row, sortValueOf ("player-" ++ "A" ++ "-plays") row =
      SortVal.n (playsOfRow row "A")) ∧
    (∀ t : String, t ≠ "" → ltVal (SortVal.s "") (SortVal.s t) = true) ∧
    (sortedPlayStats (some ("player-" ++ "A" ++ "-plays", true)) c8stats).Pairwise
      (fun a b => playsOfRow a "A" ≤ playsOfRow b "A") ∧
    (sortedPlayStats (some ("player-" ++ "A" ++ "-plays", false)) c8stats).Pairwise
      (fun a b => playsOfRow b "A" ≤ playsOfRow a "A") ∧
    handleSort (handleSort (some ("player-" ++ "A" ++ "-plays", true))
        ("player-" ++ "A" ++ "-plays")) ("player-" ++ "A" ++ "-plays") =
      some ("player-" ++ "A" ++ "-plays", true)) :=
  ⟨Or.inl rfl, C8_sort_projection c8stats "A" (Or.inl rfl)⟩

theorem foldl_min_le (l : List Int) : ∀ (m : Int), l.foldl min m ≤ m := by
  induction l with
  | nil => intro m; exact le_refl _
  | cons x tl ih =>
    intro m
    simp only [List.foldl_cons]
    exact le_trans (ih (min m x)) (min_le_left m x)

theorem foldl_min_mem (l : List Int) : ∀ (m : Int),
    l.foldl min m = m ∨ l.foldl min m ∈ l := by
  induction l with
  | nil => intro m; exact Or.inl rfl
  | cons x tl ih =>
    intro m
    simp only [List.foldl_cons]
    rcases ih (min m x) with he | hm
    · rcases min_cases m x with ⟨hc, _⟩ | ⟨hc, _⟩
      · exact Or.inl (he.trans hc)
      · refine Or.inr ?_
        rw [he, hc]
        exact List.mem_cons_self x tl
    · exact Or.inr (List.mem_cons_of_mem x hm)

theorem datedTs_cons (dv : String → Int) (stats : List (String × PlayStats))
    (player : String) (s : Spirit) (tl : List Spirit) :
    datedTs dv stats player (s :: tl) =
      (match lastOf stats s.spirit player with
       | some t =>
         if t = "" then datedTs dv stats player tl else dv t :: datedTs dv stats player tl
       | none => datedTs dv stats player tl) := by
  unfold datedTs
  simp only [List.filterMap_cons]
  cases hls : lastOf stats s.spirit player with
  | none => simp [hls]
  | some t => by_cases ht : t = "" <;> simp [hls, ht]

theorem datedTs_mem (dv : String → Int) (stats : List (String × PlayStats))
    (player : String) (cs : List Spirit) (x : Int) (hx : x ∈ datedTs dv stats player cs) :
    ∃ s, s ∈ cs ∧ ∃ t, lastOf stats s.spirit player = some t ∧ t ≠ "" ∧ dv t = x := by
  unfold datedTs at hx
  rw [List.mem_filterMap] at hx
  obtain ⟨s, hs, hmap⟩ := hx
  revert hmap
  cases hls : lastOf stats s.spirit player with
  | none => intro hmap; simp at hmap
  | some t =>
    by_cases ht : t = ""
    · simp only [if_pos ht]
      intro hmap
      simp at hmap
    · simp only [if_neg ht]
      intro hmap
      exact ⟨s, hs, t, hls, ht, Option.some.inj hmap⟩

theorem tierLoop_snd (dv : String → Int) (stats : List (String × PlayStats))
    (player : String) : ∀ (cs : List Spirit) (o : Option Spirit) (m : Int),
    (cs.foldl (tierStep dv stats player) (o, m)).2 =
      (datedTs dv stats player cs).foldl min m := by
  intro cs
  induction cs with
  | nil => intro o m; rfl
  | cons s tl ih =>
    intro o m
    simp only [List.foldl_cons, datedTs_cons]
    cases hls : lastOf stats s.spirit player with
    | none =>
      have hstep : tierStep dv stats player (o, m) s = (o, m) := by
        simp [tierStep, hls]
      rw [hstep, ih]
    | some t =>
      by_cases ht : t = ""
      · have hstep : tierStep dv stats player (o, m) s = (o, m) := by
          simp [tierStep, hls, ht]
        rw [hstep, ih]
        simp [ht]
      · by_cases hlt : dv t < m
        · have hstep : tierStep dv stats player (o, m) s = (some s, dv t) := by
            simp [tierStep, hls, ht, hlt]
          rw [hstep, ih]
          simp only [if_neg ht, List.foldl_cons]
          rw [min_eq_right (le_of_lt hlt)]
        · have hstep : tierStep dv stats player (o, m) s = (o, m) := by
            simp [tierStep, hls, ht, hlt]
          rw [hstep, ih]
          simp only [if_neg ht, List.foldl_cons]
          rw [min_eq_left (not_lt.mp hlt)]

theorem tierLoop_none (dv : String → Int) (stats : List (String × PlayStats))
    (player : String) : ∀ (cs : List Spirit) (o : Option Spirit) (m : Int),
    ¬((datedTs dv stats player cs).foldl min m < m) →
    (cs.foldl (tierStep dv stats player) (o, m)).1 = o := by
  intro cs
  induction cs with
  | nil => intro o m _; rfl
  | cons s tl ih =>
    intro o m hno
    rw [datedTs_cons] at hno
    simp only [List.foldl_cons]
    cases hls : lastOf stats s.spirit player with
    | none =>
      have hstep : tierStep dv stats player (o, m) s = (o, m) := by
        simp [tierStep, hls]
      rw [hstep]
      rw [hls] at hno
      exact ih o m hno
    | some t =>
      by_cases ht : t = ""
      · have hstep : tierStep dv stats player (o, m) s = (o, m) := by
          simp [tierStep, hls, ht]
        rw [hstep]
        rw [hls] at hno
        simp only [if_pos ht] at hno
        exact ih o m hno
      · by_cases hlt : dv t < m
        · exfalso
          rw [hls] at hno
          simp only [if_neg ht, List.foldl_cons] at hno
          have h1 := foldl_min_le (datedTs dv stats player tl) (min m (dv t))
          have h2 : min m (dv t) = dv t := min_eq_right (le_of_lt hlt)
          rw [h2] at h1 hno
          omega
        · have hstep : tierStep dv stats player (o, m) s = (o, m) := by
            simp [tierStep, hls, ht, hlt]
          rw [hstep]
          rw [hls] at hno
          simp only [if_neg ht, List.foldl_cons] at hno
          rw [min_eq_left (not_lt.mp hlt)] at hno
          exact ih o m hno

theorem tierLoop_found (dv : String → Int) (stats : List (String × PlayStats))
    (player : String) : ∀ (cs : List Spirit) (o : Option Spirit) (m : Int),
    (datedTs dv stats player cs).foldl min m < m →
    (cs.foldl (tierStep dv stats player) (o, m)).1 =
      cs.find? (tsPred dv stats player ((datedTs dv stats player cs).foldl min m)) := by
  intro cs
  induction cs with
  | nil =>
    intro o m h
    exact absurd h (lt_irrefl _)
  | cons s tl ih =>
    intro o m hlt0
    simp only [List.foldl_cons]
    cases hls : lastOf stats s.spirit player with
    | none =>
      have hM : (datedTs dv stats player (s :: tl)).foldl min m =
          (datedTs dv stats player tl).foldl min m := by
        rw [datedTs_cons, hls]
      have hstep : tierStep dv stats player (o, m) s = (o, m) := by
        simp [tierStep, hls]
      have hpred : tsPred dv stats player
          ((datedTs dv stats player (s :: tl)).foldl min m) s = false := by
        simp [tsPred, hls]
      rw [hstep, List.find?_cons_of_neg _ (by rw [hpred]; simp), hM]
      rw [hM] at hlt0
      exact ih o m hlt0
    | some t =>
      by_cases ht : t = ""
      · have hM : (datedTs dv stats player (s :: tl)).foldl min m =
            (datedTs dv stats player tl).foldl min m := by
          rw [datedTs_cons, hls]
          simp [ht]
        have hstep : tierStep dv stats player (o, m) s = (o, m) := by
          simp [tierStep, hls, ht]
        have hpred : tsPred dv stats player
            ((datedTs dv stats player (s :: tl)).foldl min m) s = false := by
          simp [tsPred, hls, ht]
        rw [hstep, List.find?_cons_of_neg _ (by rw [hpred]; simp), hM]
        rw [hM] at hlt0
        exact ih o m hlt0
      · by_cases hlt : dv t < m
        · have hM : (datedTs dv stats player (s :: tl)).foldl min m =
              (datedTs dv stats player tl).foldl min (dv t) := by
            rw [datedTs_cons, hls]
            simp only [if_neg ht, List.foldl_cons]
            rw [min_eq_right (le_of_lt hlt)]
          have hstep : tierStep dv stats player (o, m) s = (some s, dv t) := by
            simp [tierStep, hls, ht, hlt]
          rw [hstep]
          by_cases hM2 : (datedTs dv stats player tl).foldl min (dv t) < dv t
          · have hres := ih (some s) (dv t) hM2
            rw [hres]
            have hne : dv t ≠ (datedTs dv stats player tl).foldl min (dv t) := by omega
            have hpred : tsPred dv stats player
                ((datedTs dv stats player (s :: tl)).foldl min m) s = false := by
              simp [tsPred, hls, ht, hM]
              omega
            rw [List.find?_cons_of_neg _ (by rw [hpred]; simp), hM]
          · have hres := tierLoop_none dv stats player tl (some s) (dv t) hM2
            rw [hres]
            have heq : (datedTs dv stats player tl).foldl min (dv t) = dv t :=
              le_antisymm (foldl_min_le _ _) (not_lt.mp hM2)
            have hpred : tsPred dv stats player
                ((datedTs dv stats player (s :: tl)).foldl min m) s = true := by
              simp [tsPred, hls, ht, hM, heq]
            exact (List.find?_cons_of_pos _ hpred).symm
        · have hM : (datedTs dv stats player (s :: tl)).foldl min m =
              (datedTs dv stats player tl).foldl min m := by
            rw [datedTs_cons, hls]
            simp only [if_neg ht, List.foldl_cons]
            rw [min_eq_left (not_lt.mp hlt)]
          have hstep : tierStep dv stats player (o, m) s = (o, m) := by
            simp [tierStep, hls, ht, hlt]
          rw [hstep]
          rw [hM] at hlt0
          have hpred : tsPred dv stats player
              ((datedTs dv stats player (s :: tl)).foldl min m) s = false := by
            have hle := foldl_min_le (datedTs dv stats player tl) m
            simp [tsPred, hls, ht, hM]
            omega
          rw [List.find?_cons_of_neg _ (by rw [hpred]; simp), hM]
          exact ih o m hlt0

theorem getk_foldl_setk_fun {κ α : Type} [DecidableEq κ] (f : κ → α) :
    ∀ (l : List κ) (m : List (κ × α)) (y : κ),
    getk (l.foldl (fun acc x => setk acc x (f x)) m) y =
      if y ∈ l then some (f y) else getk m y := by
  intro l
  induction l with
  | nil => intro m y; simp
  | cons x tl ih =>
    intro m y
    simp only [List.foldl_cons, ih, getk_setk, List.mem_cons]
    by_cases h1 : y ∈ tl
    · simp [h1]
    · by_cases h2 : x = y
      · simp [h1, h2]
      · have h3 : ¬ y = x := fun he => h2 he.symm
        simp [h1, h2, h3]

theorem getk_foldl_opt {κ α : Type} [DecidableEq κ] (g : κ → Option α) :
    ∀ (l : List κ) (m : List (κ × α)) (y : κ),
    getk (l.foldl (fun acc x => setOpt acc x (g x)) m) y =
      if y ∈ l then (match g y with | some r => some r | none => getk m y)
      else getk m y := by
  intro l
  induction l with
  | nil => intro m y; simp
  | cons x tl ih =>
    intro m y
    simp only [List.foldl_cons, List.mem_cons]
    rw [ih]
    by_cases h2 : x = y
    · subst h2
      cases hg : g x with
      | none =>
        by_cases h1 : x ∈ tl
        · simp [h1, hg, setOpt]
        · simp [h1, hg, setOpt]
      | some r =>
        by_cases h1 : x ∈ tl
        · simp [h1, hg, setOpt, getk_setk]
        · simp [h1, hg, setOpt, getk_setk]
    · have h3 : ¬ y = x := fun he => h2 he.symm
      cases hg : g x with
      | none =>
        by_cases h1 : y ∈ tl
        · simp [h1, h3, hg, setOpt]
        · simp [h1, h3, hg, setOpt]
      | some r =>
        by_cases h1 : y ∈ tl
        · cases hgy : g y <;> simp [h1, h2, h3, hg, hgy, setOpt, getk_setk]
        · cases hgy : g y <;> simp [h1, h2, h3, hg, hgy, setOpt, getk_setk]

theorem getRecommendations_lookup (dv : String → Int) (fmtTs : Int → String)
    (now : Int) (pickIdx : Nat → Nat) (plays : List Play) (spirits : List Spirit)
    (player comp : String)
    (hplayer : player ∈ uniquePlayers plays) (hcomp : comp ∈ complexityLevels) :
    (getk (getRecommendations dv fmtTs now pickIdx plays spirits) player).bind
      (fun inner => getk inner comp) =
    recForTier dv fmtTs now pickIdx (buildPlayStats dv plays spirits) player
      (spirits.filter (fun s => s.complexity == comp)) := by
  unfold getRecommendations
  rw [getk_foldl_setk_fun (fun player => complexityLevels.foldl (fun inner comp =>
    setOpt inner comp
      (recForTier dv fmtTs now pickIdx (buildPlayStats dv plays spirits) player
        (spirits.filter (fun s => s.complexity == comp)))) [])
    (uniquePlayers plays) [] player]
  rw [if_pos hplayer]
  simp only [Option.bind]
  rw [getk_foldl_opt (fun comp => recForTier dv fmtTs now pickIdx
    (buildPlayStats dv plays spirits) player
    (spirits.filter (fun s => s.complexity == comp))) complexityLevels [] comp]
  rw [if_pos hcomp]
  cases recForTier dv fmtTs now pickIdx (buildPlayStats dv plays spirits) player
    (spirits.filter (fun s => s.complexity == comp)) <;> simp [getk]

/-- C2 counterexample: with one LOW spirit played once at timestamp 5,
running at current time 0 the fully-played tier yields no
recommendation at all (the oldest-played scan is seeded with the
current time), and running at current time 10 the reason string is
capitalized, so the claimed unconditional earliest-last-played
recommendation with reason exactly of the form beginning in lowercase
does not hold. -/
theorem C2_cex :
    (c2spirits.filter (fun s => s.complexity == "LOW")).filter
      (fun s => playsOf (buildPlayStats c2dv c2plays c2spirits) s.spirit "A" == 0) = [] ∧
    (c2spirits.filter (fun s => s.complexity == "LOW")) ≠ [] ∧
    recForTier c2dv (fun _ => "D") 0 (fun _ => 0)
      (buildPlayStats c2dv c2plays c2spirits) "A"
      (c2spirits.filter (fun s => s.complexity == "LOW")) = none ∧
    recForTier c2dv (fun _ => "D") 10 (fun _ => 0)
      (buildPlayStats c2dv c2plays c2spirits) "A"
      (c2spirits.filter (fun s => s.complexity == "LOW")) =
      some ⟨⟨"X", "LOW", "s", "i"⟩, "Last played D"⟩ := by
  decide

/-- C2 (amended): the per-player per-tier recommendation of
getRecommendations equals recForTier on the tier members; an empty
tier yields none; a tier with unplayed members yields some unplayed
member with reason exactly Never played; a fully played tier yields
the first member with the minimal truthy last-played timestamp among
those strictly before the current time, with reason Last played
followed by the formatted timestamp, and yields nothing when no member
has a truthy last-played date strictly before the current time. -/
theorem C2_recommendation (dv : String → Int) (fmtTs : Int → String) (now : Int)
    (pickIdx : Nat → Nat) (plays : List Play) (spirits : List Spirit)
    (player comp : String)
    (hpick : ∀ n, 0 < n → pickIdx n < n)
    (hplayer : player ∈ uniquePlayers plays) (hcomp : comp ∈ complexityLevels) :
    (getk (getRecommendations dv fmtTs now pickIdx plays spirits) player).bind
      (fun inner => getk inner comp) =
      recForTier dv fmtTs now pickIdx (buildPlayStats dv plays spirits) player
        (spirits.filter (fun s => s.complexity == comp)) ∧
    (spirits.filter (fun s => s.complexity == comp) = [] →
      recForTier dv fmtTs now pickIdx (buildPlayStats dv plays spirits) player
        (spirits.filter (fun s => s.complexity == comp)) = none) ∧
    ((spirits.filter (fun s => s.complexity == comp)).filter
        (fun s => playsOf (buildPlayStats dv plays spirits) s.spirit player == 0) ≠ [] →
      ∃ s, s ∈ (spirits.filter (fun s => s.complexity == comp)).filter
          (fun s => playsOf (buildPlayStats dv plays spirits) s.spirit player == 0) ∧
        recForTier dv fmtTs now pickIdx (buildPlayStats dv plays spirits) player
          (spirits.filter (fun s => s.complexity == comp)) = some ⟨s, "Never played"⟩) ∧
    ((spirits.filter (fun s => s.complexity == comp)).filter
        (fun s => playsOf (buildPlayStats dv plays spirits) s.spirit player == 0) = [] →
      ¬((datedTs dv (buildPlayStats dv plays spirits) player
          (spirits.filter (fun s => s.complexity == comp))).foldl min now < now) →
      recForTier dv fmtTs now pickIdx (buildPlayStats dv plays spirits) player
        (spirits.filter (fun s => s.complexity == comp)) = none) ∧
    ((spirits.filter (fun s => s.complexity == comp)).filter
        (fun s => playsOf (buildPlayStats dv plays spirits) s.spirit player == 0) = [] →
      (datedTs dv (buildPlayStats dv plays spirits) player
          (spirits.filter (fun s => s.complexity == comp))).foldl min now < now →
      ∃ s, (spirits.filter (fun s => s.complexity == comp)).find?
          (tsPred dv (buildPlayStats dv plays spirits) player
            ((datedTs dv (buildPlayStats dv plays spirits) player
              (spirits.filter (fun s => s.complexity == comp))).foldl min now)) = some s ∧
        recForTier dv fmtTs now pickIdx (buildPlayStats dv plays spirits) player
          (spirits.filter (fun s => s.complexity == comp)) =
          some ⟨s, "Last played " ++ fmtTs
            ((datedTs dv (buildPlayStats dv plays spirits) player
              (spirits.filter (fun s => s.complexity == comp))).foldl min now)⟩) := by
  refine ⟨getRecommendations_lookup dv fmtTs now pickIdx plays spirits player comp
    hplayer hcomp, ?_, ?_, ?_, ?_⟩
  · intro hcs
    rw [hcs]
    rfl
  · intro hne
    unfold recForTier
    have hlen : 0 < ((spirits.filter (fun s => s.complexity == comp)).filter
        (fun s => playsOf (buildPlayStats dv plays spirits) s.spirit player == 0)).length := by
      cases hu : (spirits.filter (fun s => s.complexity == comp)).filter
          (fun s => playsOf (buildPlayStats dv plays spirits) s.spirit player == 0) with
      | nil => exact absurd hu hne
      | cons a l => simp [hu]
    rw [if_pos hlen]
    refine ⟨_, ?_, rfl⟩
    have hidx := hpick _ hlen
    rw [List.getD_eq_getElem?_getD, List.getElem?_eq_getElem hidx]
    simp only [Option.getD_some]
    exact List.getElem_mem hidx
  · intro hun hno
    unfold recForTier
    have hlen : ¬ (0 < ((spirits.filter (fun s => s.complexity == comp)).filter
        (fun s => playsOf (buildPlayStats dv plays spirits) s.spirit player == 0)).length) := by
      rw [hun]
      simp
    rw [if_neg hlen]
    have h1 := tierLoop_none dv (buildPlayStats dv plays spirits) player
      (spirits.filter (fun s => s.complexity == comp)) none now hno
    unfold tierLoop at h1 ⊢
    revert h1
    cases hres : (spirits.filter (fun s => s.complexity == comp)).foldl
        (tierStep dv (buildPlayStats dv plays spirits) player) (none, now) with
    | mk o2 m2 =>
      intro h1
      simp at h1
      rw [h1]
  · intro hun hyes
    have h1 := tierLoop_found dv (buildPlayStats dv plays spirits) player
      (spirits.filter (fun s => s.complexity == comp)) none now hyes
    have h2 := tierLoop_snd dv (buildPlayStats dv plays spirits) player
      (spirits.filter (fun s => s.complexity == comp)) none now
    have hlen : ¬ (0 < ((spirits.filter (fun s => s.complexity == comp)).filter
        (fun s => playsOf (buildPlayStats dv plays spirits) s.spirit player == 0)).length) := by
      rw [hun]
      simp
    have hfind : ∃ s, (spirits.filter (fun s => s.complexity == comp)).find?
        (tsPred dv (buildPlayStats dv plays spirits) player
          ((datedTs dv (buildPlayStats dv plays spirits) player
            (spirits.filter (fun s => s.complexity == comp))).foldl min now)) = some s := by
      rcases foldl_min_mem (datedTs dv (buildPlayStats dv plays spirits) player
          (spirits.filter (fun s => s.complexity == comp))) now with he | hm
      · rw [he] at hyes
        exact absurd hyes (lt_irrefl _)
      · obtain ⟨s, hs, t, hls, ht, hdt⟩ := datedTs_mem dv _ player _ _ hm
        cases hfq : (spirits.filter (fun s => s.complexity == comp)).find?
            (tsPred dv (buildPlayStats dv plays spirits) player
              ((datedTs dv (buildPlayStats dv plays spirits) player
                (spirits.filter (fun s => s.complexity == comp))).foldl min now)) with
        | none =>
          exfalso
          have := List.find?_eq_none.mp hfq s hs
          apply this
          simp [tsPred, hls, ht, hdt]
        | some s2 => exact ⟨s2, rfl⟩
    obtain ⟨s, hfs⟩ := hfind
    refine ⟨s, hfs, ?_⟩
    unfold recForTier
    rw [if_neg hlen]
    unfold tierLoop at h1 h2 ⊢
    revert h1 h2
    cases hres : (spirits.filter (fun s => s.complexity == comp)).foldl
        (tierStep dv (buildPlayStats dv plays spirits) player) (none, now) with
    | mk o2 m2 =>
      intro h1 h2
      simp only at h1 h2
      rw [hfs] at h1
      rw [h1, h2]

theorem C2_recommendation_witness :
    ((∀ n : Nat, 0 < n → (fun _ => 0 : Nat → Nat) n < n) ∧
      "A" ∈ uniquePlayers c2plays ∧ "LOW" ∈ complexityLevels) ∧
    ((getk (getRecommendations c2dv (fun _ => "D") 10 (fun _ => 0) c2plays c2spirits)
        "A").bind (fun inner => getk inner "LOW") =
      recForTier c2dv (fun _ => "D") 10 (fun _ => 0)
        (buildPlayStats c2dv c2plays c2spirits) "A"
        (c2spirits.filter (fun s => s.complexity == "LOW")) ∧
    (c2spirits.filter (fun s => s.complexity == "LOW") = [] →
      recForTier c2dv (fun _ => "D") 10 (fun _ => 0)
        (buildPlayStats c2dv c2plays c2spirits) "A"
        (c2spirits.filter (fun s => s.complexity == "LOW")) = none) ∧
    ((c2spirits.filter (fun s => s.complexity == "LOW")).filter
        (fun s => playsOf (buildPlayStats c2dv c2plays c2spirits) s.spirit "A" == 0) ≠ [] →
      ∃ s, s ∈ (c2spirits.filter (fun s => s.complexity == "LOW")).filter
          (fun s => playsOf (buildPlayStats c2dv c2plays c2spirits) s.spirit "A" == 0) ∧
        recForTier c2dv (fun _ => "D") 10 (fun _ => 0)
          (buildPlayStats c2dv c2plays c2spirits) "A"
          (c2spirits.filter (fun s => s.complexity == "LOW")) =
          some ⟨s, "Never played"⟩) ∧
    ((c2spirits.filter (fun s => s.complexity == "LOW")).filter
        (fun s => playsOf (buildPlayStats c2dv c2plays c2spirits) s.spirit "A" == 0) = [] →
      ¬((datedTs c2dv (buildPlayStats c2dv c2plays c2spirits) "A"
          (c2spirits.filter (fun s => s.complexity == "LOW"))).foldl min 10 < 10) →
      recForTier c2dv (fun _ => "D") 10 (fun _ => 0)
        (buildPlayStats c2dv c2plays c2spirits) "A"
        (c2spirits.filter (fun s => s.complexity == "LOW")) = none) ∧
    ((c2spirits.filter (fun s => s.complexity == "LOW")).filter
        (fun s => playsOf (buildPlayStats c2dv c2plays c2spirits) s.spirit "A" == 0) = [] →
      (datedTs c2dv (buildPlayStats c2dv c2plays c2spirits) "A"
          (c2spirits.filter (fun s => s.complexity == "LOW"))).foldl min 10 < 10 →
      ∃ s, (c2spirits.filter (fun s => s.complexity == "LOW")).find?
          (tsPred c2dv (buildPlayStats c2dv c2plays c2spirits) "A"
            ((datedTs c2dv (buildPlayStats c2dv c2plays c2spirits) "A"
              (c2spirits.filter (fun s => s.complexity == "LOW"))).foldl min 10)) = some s ∧
        recForTier c2dv (fun _ => "D") 10 (fun _ => 0)
          (buildPlayStats c2dv c2plays c2spirits) "A"
          (c2spirits.filter (fun s => s.complexity == "LOW")) =
          some ⟨s, "Last played " ++ (fun _ => "D")
            ((datedTs c2dv (buildPlayStats c2dv c2plays c2spirits) "A"
              (c2spirits.filter (fun s => s.complexity == "LOW"))).foldl min 10)⟩)) :=
  ⟨⟨fun _ hn => hn, by decide, by decide⟩,
    C2_recommendation c2dv (fun _ => "D") 10 (fun _ => 0) c2plays c2spirits "A" "LOW"
      (fun _ hn => hn) (by decide) (by decide)⟩

/-- C9 counterexample: two runs over identical inputs and identical
random source but read at different current times produce different
spirit recommendations in the non-randomized oldest-played branch
(a tier fully played at timestamp 5 yields no recommendation at time
0 and a recommendation at time 10), so not every function other than
the randomized pick is independent of ambient state. -/
theorem C9_time_dependence_cex :
    (runCore c2dv (fun _ => "D") ⟨0, fun _ => 0⟩ c2plays c2spirits []).charRecs ≠
    (runCore c2dv (fun _ => "D") ⟨10, fun _ => 0⟩ c2plays c2spirits []).charRecs := by
  decide

/-- C9 (amended): with fixed inputs and date semantics, the character
and adversary aggregates, the adversary recommendations, the sort
projection, and the summaries are identical across runs regardless of
the ambient current time and random source, and two runs with the same
ambient state agree on every output including the spirit
recommendations; only the spirit recommendations may vary with the
ambient state. -/
theorem C9_determinism (dv : String → Int) (fmtTs : Int → String) (amb amb' : Ambient)
    (plays : List Play) (spirits : List Spirit) (advs : List Adversary) :
    (runCore dv fmtTs amb plays spirits advs).charStats =
      (runCore dv fmtTs amb' plays spirits advs).charStats ∧
    (runCore dv fmtTs amb plays spirits advs).advStats =
      (runCore dv fmtTs amb' plays spirits advs).advStats ∧
    (runCore dv fmtTs amb plays spirits advs).advRecs =
      (runCore dv fmtTs amb' plays spirits advs).advRecs ∧
    (runCore dv fmtTs amb plays spirits advs).summaries =
      (runCore dv fmtTs amb' plays spirits advs).summaries ∧
    (∀ cfg, sortedPlayStats cfg (runCore dv fmtTs amb plays spirits advs).charStats =
      sortedPlayStats cfg (runCore dv fmtTs amb' plays spirits advs).charStats) ∧
    (amb.now = amb'.now → amb.pickIdx = amb'.pickIdx →
      runCore dv fmtTs amb plays spirits advs = runCore dv fmtTs amb' plays spirits advs) := by
  refine ⟨rfl, rfl, rfl, rfl, fun _ => rfl, ?_⟩
  intro h1 h2
  have h3 : amb = amb' := by
    cases amb with
    | mk n p =>
      cases amb' with
      | mk n2 p2 =>
        simp only at h1 h2
        rw [h1, h2]
  rw [h3]

theorem C9_determinism_witness :
    (runCore c2dv (fun _ => "D") ⟨5, fun _ => 0⟩ c2plays c2spirits []).charStats =
      (runCore c2dv (fun _ => "D") ⟨7, fun _ => 1⟩ c2plays c2spirits []).charStats ∧
    (runCore c2dv (fun _ => "D") ⟨5, fun _ => 0⟩ c2plays c2spirits []).advStats =
      (runCore c2dv (fun _ => "D") ⟨7, fun _ => 1⟩ c2plays c2spirits []).advStats ∧
    (runCore c2dv (fun _ => "D") ⟨5, fun _ => 0⟩ c2plays c2spirits []).advRecs =
      (runCore c2dv (fun _ => "D") ⟨7, fun _ => 1⟩ c2plays c2spirits []).advRecs ∧
    (runCore c2dv (fun _ => "D") ⟨5, fun _ => 0⟩ c2plays c2spirits []).summaries =
      (runCore c2dv (fun _ => "D") ⟨7, fun _ => 1⟩ c2plays c2spirits []).summaries ∧
    (∀ cfg, sortedPlayStats cfg
        (runCore c2dv (fun _ => "D") ⟨5, fun _ => 0⟩ c2plays c2spirits []).charStats =
      sortedPlayStats cfg
        (runCore c2dv (fun _ => "D") ⟨7, fun _ => 1⟩ c2plays c2spirits []).charStats) ∧
    ((Ambient.mk 5 (fun _ => 0)).now = (Ambient.mk 7 (fun _ => 1)).now →
      (Ambient.mk 5 (fun _ => 0)).pickIdx = (Ambient.mk 7 (fun _ => 1)).pickIdx →
      runCore c2dv (fun _ => "D") ⟨5, fun _ => 0⟩ c2plays c2spirits [] =
        runCore c2dv (fun _ => "D") ⟨7, fun _ => 1⟩ c2plays c2spirits []) :=
  C9_determinism c2dv (fun _ => "D") ⟨5, fun _ => 0⟩ ⟨7, fun _ => 1⟩ c2plays c2spirits []

end SpiritIsland
